import Mathlib

/-!
# Layer resolution and extraction dispatch of `cmd/sops/decrypt.go`

A shallow embedding of `detectLayers`, `extract` and `decrypt`.

Go strings are modelled as lists of characters.  The functions of the Go
standard library that the code calls are modelled next to it (`Ext`,
`FindString`, `ParseInt`, `ReplaceAll`); `fmt.Sprintf`, `strconv.Quote` and
`os.Stat` are fields of `Sys`, so that every general theorem holds whatever
these three do.  `Sprintf` below is the modelled fragment of `fmt.Sprintf`,
used for concrete evaluations and, for the soundness of the template, through
the hypothesis that the system agrees with it where it is defined.

A Go function with results `(value, error)` either returns the pair or ends in
a run-time panic (`Result`); each run also records the calls it made to
`os.Stat` and to the collaborators, in order, so that "is not invoked" is a
statement about that record.
-/

namespace Sops

/-- A Go string. -/
abbrev Str := List Char

/-! ## Standard library -/

/-- The path separator test `os.IsPathSeparator` on Unix. -/
def isPathSeparator (c : Char) : Bool := c == '/'

/-- The scan of `filepath.Ext`, from the last character towards the first:
`rev` is what is left to scan (reversed), `acc` the characters already passed. -/
def extScan : List Char → List Char → Str
  | [], _ => []
  | c :: rev, acc =>
    if isPathSeparator c then []
    else if c == '.' then c :: acc
    else extScan rev (c :: acc)

/-- The extension `filepath.Ext(path)`: the suffix starting at the last dot of
the last path element, empty when there is none. -/
def Ext (path : Str) : Str := extScan path.reverse []

/-- The class `\d` of Go regular expressions: the ASCII digits. -/
def isDigit (c : Char) : Bool := '0' ≤ c && c ≤ '9'

/-- The match `regexp.MustCompile("\\d+$").FindString(base)`: the leftmost
match of one or more digits up to the end of the text, which is the maximal
trailing run of digits; empty when the text does not end in a digit. -/
def FindString (base : Str) : Str := (base.reverse.takeWhile isDigit).reverse

/-- The value of a digit character. -/
def digitVal (c : Char) : Nat := c.toNat - '0'.toNat

/-- The decimal value of a string of digits. -/
def decimalValue (s : Str) : Nat := s.foldl (fun n c => 10 * n + digitVal c) 0

/-- The two errors of `strconv.ParseInt`. -/
inductive NumError where
  | ErrSyntax
  | ErrRange
  deriving DecidableEq, Repr

/-- The bound `1<<63 - 1` of a 64-bit signed integer. -/
def maxInt64 : Nat := 2 ^ 63 - 1

/-- The call `strconv.ParseUint(s, 10, 64)` followed by the signed range check
of `strconv.ParseInt(s, 10, 64)`. -/
def ParseInt (s : Str) : Except NumError Int :=
  match s with
  | [] => .error .ErrSyntax
  | c :: rest =>
    let neg := c == '-'
    let digits := if c == '+' || c == '-' then rest else s
    if digits.isEmpty || !digits.all isDigit then .error .ErrSyntax
    else
      let un := decimalValue digits
      if !neg && un > maxInt64 then .error .ErrRange
      else if neg && un > maxInt64 + 1 then .error .ErrRange
      else .ok (if neg then -(un : Int) else (un : Int))

/-- The text of a `strconv.NumError`. -/
def NumError.text : NumError → Str
  | .ErrSyntax => "invalid syntax".toList
  | .ErrRange => "value out of range".toList

/-- The replacement loop of `strings.ReplaceAll` for a non-empty `old`:
`skip` counts the characters of a match still to be dropped. -/
def replaceGo (old new : Str) : Str → Nat → Str
  | [], _ => []
  | _ :: s, skip + 1 => replaceGo old new s skip
  | c :: s, 0 =>
    if old.isPrefixOf (c :: s) then new ++ replaceGo old new s (old.length - 1)
    else c :: replaceGo old new s 0

/-- The call `strings.ReplaceAll(s, old, new)`: every non-overlapping
occurrence of `old`, from the left, is replaced by `new`. -/
def ReplaceAll (s old new : Str) : Str :=
  if old.isEmpty then new ++ s.flatMap (fun c => c :: new)
  else replaceGo old new s 0

/-- The decimal digits of a natural number. -/
def decimal (n : Nat) : Str := Nat.toDigits 10 n

/-- The integer formatting of verb `d` (`fmtInteger` in base 10): with the
zero flag and a width the digits are padded with zeros, the sign taking one
place; with a width alone the text is padded with blanks on the left. -/
def fmtInteger (zero : Bool) (wid : Option Nat) (i : Int) : Str :=
  let neg := decide (i < 0)
  let ds := decimal i.natAbs
  let sign : Str := if neg then ['-'] else []
  match wid with
  | none => sign ++ ds
  | some w =>
    if zero then
      let prec := if neg then w - 1 else w
      sign ++ List.replicate (prec - ds.length) '0' ++ ds
    else
      List.replicate (w - (sign ++ ds).length) ' ' ++ sign ++ ds

/-- The number parser `parsenum` of package fmt: `none` when the number
becomes too large (above `1e6` with a digit still to read). -/
def parsenum : Str → Nat → Option (Nat × Str)
  | [], num => some (num, [])
  | c :: s, num =>
    if isDigit c then
      if num > 1000000 then none
      else parsenum s (10 * num + digitVal c)
    else some (num, c :: s)

/-- Drops the zero flags that follow a percent sign. -/
def dropZeroFlags : Str → Bool × Str
  | '0' :: s => (true, (dropZeroFlags s).2)
  | s => (false, s)

/-- The end of a format inside a directive: `%!(NOVERB)`, followed by the
report of the operand when no directive used it. -/
def noVerbEnd (i : Int) (used : Bool) : Str :=
  "%!(NOVERB)".toList ++
    (if used then [] else "%!(EXTRA int64=".toList ++ fmtInteger false none i ++ [')'])

/-- The modelled fragment of `fmt.Sprintf(format, i)` with one `int64` operand:
plain text, and directives made of a percent sign, zero flags, a decimal width
and one of the verbs `d` and `%`.  A `d` directive prints the operand the first
time and `%!d(MISSING)` afterwards; an operand that no directive used is
reported at the end as `%!(EXTRA int64=..)`.  A directive whose width is too
large for `parsenum`, or that the end of the format cuts before its verb, ends
the output with `%!(NOVERB)`.  The result is `none` for a format with any
other directive.  `used` tells that the operand is consumed; `fuel` bounds
the length of the format. -/
def sprintfGo (i : Int) : Nat → Str → Bool → Option Str
  | 0, _, _ => none
  | _ + 1, [], used =>
    some (if used then [] else "%!(EXTRA int64=".toList ++ fmtInteger false none i ++ [')'])
  | fuel + 1, '%' :: s, used =>
    let zs := dropZeroFlags s
    match parsenum zs.2 0 with
    | none => some (noVerbEnd i used)
    | some (w, rest) =>
      let wid := if rest.length < zs.2.length then some w else none
      match rest with
      | [] => some (noVerbEnd i used)
      | 'd' :: t =>
        if used then (sprintfGo i fuel t true).map (fun r => "%!d(MISSING)".toList ++ r)
        else (sprintfGo i fuel t true).map (fun r => fmtInteger zs.1 wid i ++ r)
      | '%' :: t => (sprintfGo i fuel t used).map (fun r => '%' :: r)
      | _ => none
  | fuel + 1, c :: s, used => (sprintfGo i fuel s used).map (fun r => c :: r)

/-- The modelled fragment of `fmt.Sprintf(format, i)`. -/
def Sprintf (format : Str) (i : Int) : Option Str :=
  sprintfGo i (format.length + 1) format false

/-! ## Errors and results -/

/-- A Go error value: its message, and its exit code when it is a
`*cli.ExitError`. -/
structure Error where
  msg : Str
  exitCode : Option Nat
  deriving DecidableEq, Repr

/-- The error made by `fmt.Errorf` from the formatted message. -/
def Errorf (msg : Str) : Error := ⟨msg, none⟩

/-- The error made by `common.NewExitError(msg, exitCode)` from a string. -/
def NewExitError (msg : Str) (exitCode : Nat) : Error := ⟨msg, some exitCode⟩

/-- How a Go function with results `(value, error)` ends: it returns the pair,
where `none` stands for `nil`, or it ends in a run-time panic. -/
inductive Result (α : Type) where
  | ret (val : Option α) (err : Option Error)
  | panic (msg : Str)
  deriving DecidableEq, Repr

/-! ## The layer resolver -/

/-- The part of the system that `detectLayers` calls and that is not modelled
here: `Sprintf template i` is `fmt.Sprintf(template, i)` for an `int64`,
`Quote` is `strconv.Quote` (verb `%q`), and `Stat path` is `os.Stat(path)`:
`none` when it succeeds, the text of the system error when it fails. -/
structure Sys where
  Sprintf : Str → Int → Str
  Quote : Str → Str
  Stat : Str → Option Str

/-- The text of the `*fs.PathError` that a failed `os.Stat(path)` returns. -/
def statErrorText (path errno : Str) : Str :=
  "stat ".toList ++ path ++ ": ".toList ++ errno

/-- The text of the `*strconv.NumError` that `strconv.ParseInt(s, 10, 64)`
returns. -/
def parseErrorText (sys : Sys) (s : Str) (e : NumError) : Str :=
  "strconv.ParseInt: parsing ".toList ++ sys.Quote s ++ ": ".toList ++ e.text

/-- The largest allocation `runtime.maxAlloc` of a 64-bit platform with 48-bit
heap addresses. -/
def maxAlloc : Nat := 2 ^ 48

/-- The size in bytes of a `string` header on a 64-bit platform. -/
def stringSize : Nat := 16

/-- The capacity check of `runtime.makeslice` for `make([]string, 0, cap)`:
the call panics when the capacity is negative or when the size of the slice
exceeds `maxAlloc`.  An allocation that passes the check is taken to succeed:
the exhaustion of memory is not modelled. -/
def makesliceOK (cap : Int) : Bool :=
  decide (0 ≤ cap) && decide (stringSize * cap.toNat ≤ maxAlloc)

/-- What a call of `detectLayers` did: its result and the paths it gave to
`os.Stat`, in order. -/
structure LayerRun where
  result : Result (List Str)
  probes : List Str

/-- The loop `for i := layer - 1; i > 0; i--` of `detectLayers`, entered with
`i`, the layers appended so far and the paths probed so far. -/
def layerLoop (sys : Sys) (template : Str) : Nat → List Str → List Str → LayerRun
  | 0, layers, probes => ⟨.ret (some layers) none, probes⟩
  | i + 1, layers, probes =>
    let layerPath := sys.Sprintf template ((i + 1 : Nat) : Int)
    match sys.Stat layerPath with
    | some errno =>
      ⟨.ret none (some (Errorf ("missing layer ".toList ++ sys.Quote layerPath ++
        ": ".toList ++ statErrorText layerPath errno))), probes ++ [layerPath]⟩
    | none => layerLoop sys template i (layers ++ [layerPath]) (probes ++ [layerPath])

/-- The template of `detectLayers`. -/
def layerTemplate (path layerRaw ext : Str) : Str :=
  ReplaceAll path (layerRaw ++ ext) ("%0".toList ++ decimal layerRaw.length ++ ['d'] ++ ext)

/-- The function `detectLayers(path)`. -/
def detectLayers (sys : Sys) (path : Str) : LayerRun :=
  let ext := Ext path
  let base := path.take (path.length - ext.length)
  let layerRaw := FindString base
  if layerRaw = [] then
    ⟨.ret none (some (Errorf ("could not extract layer from ".toList ++ path))), []⟩
  else
    match ParseInt layerRaw with
    | .error e =>
      ⟨.ret none (some (Errorf ("could not parse layer ".toList ++ layerRaw ++
        ": ".toList ++ parseErrorText sys layerRaw e))), []⟩
    | .ok layer =>
      let template := layerTemplate path layerRaw ext
      if makesliceOK layer then layerLoop sys template (layer - 1).toNat [] []
      else ⟨.panic "runtime error: makeslice: cap out of range".toList, []⟩

/-! ## The document tree and the collaborators -/

/-- A segment of an extraction path (`[]interface{}`): a key or an index. -/
inductive PathElem where
  | key (k : Str)
  | index (n : Int)
  deriving DecidableEq, Repr

/-- The value `interface{}` that `Truncate` returns, by its dynamic type: a
`sops.TreeBranch`, a `string`, or a value of any other type (a number, a
boolean, `nil`, a slice, ...).  The types `β` of branches and `σ` of the other
values belong to package sops and are left open. -/
inductive Value (β σ : Type) where
  | branch (b : β)
  | str (s : Str)
  | other (o : σ)
  deriving DecidableEq, Repr

/-- The document `sops.Tree`: its branches and its metadata, of the open type
`μ`. -/
structure Tree (β μ : Type) where
  Branches : List β
  Metadata : μ
  deriving DecidableEq, Repr

/-- The collaborators of `decrypt` and `extract`, whose code is in other
packages: each is the Go function applied to the cipher, stores and key
services of the options, and returns its value or its error.  The operations
that change the tree in place return the tree after the call.
`ErrorDumpingTree` is the constant of package codes. -/
structure Collab (β σ μ : Type) where
  LoadEncryptedFileWithBugFixes : Str → Bool → Except Error (Tree β μ)
  DecryptTree : Bool → Tree β μ → Except Error (Tree β μ)
  DecryptLayers : Tree β μ → List Str → Except Error (Tree β μ)
  Truncate : β → List PathElem → Except Error (Value β σ)
  EmitPlainFile : List β → Except Error Str
  EmitValue : Value β σ → Except Error Str
  ErrorDumpingTree : Nat

/-- A call of a collaborator or of `os.Stat`, with its arguments. -/
inductive Call (β σ μ : Type) where
  | LoadEncryptedFileWithBugFixes (path : Str) (ignoreMAC : Bool)
  | DecryptTree (ignoreMAC : Bool) (tree : Tree β μ)
  | Stat (path : Str)
  | DecryptLayers (tree : Tree β μ) (layers : List Str)
  | Truncate (branch : β) (path : List PathElem)
  | EmitPlainFile (branches : List β)
  | EmitValue (v : Value β σ)
  deriving DecidableEq, Repr

/-- What a call of `extract` did: its result (the output bytes have the
content of a string), the tree after the call, and the calls it made, in
order. -/
structure ExtractRun (β σ μ : Type) where
  result : Result Str
  tree : Tree β μ
  calls : List (Call β σ μ)

/-- The function `extract(tree, path, outputStore)`. -/
def extract {β σ μ : Type} (c : Collab β σ μ) (tree : Tree β μ) (path : List PathElem) :
    ExtractRun β σ μ :=
  match tree.Branches with
  | [] => ⟨.panic "runtime error: index out of range [0] with length 0".toList, tree, []⟩
  | b0 :: bs =>
    match c.Truncate b0 path with
    | .error err =>
      ⟨.ret none (some (Errorf ("error truncating tree: ".toList ++ err.msg))), tree,
        [.Truncate b0 path]⟩
    | .ok (.branch newBranch) =>
      let tree1 : Tree β μ := { tree with Branches := newBranch :: bs }
      match c.EmitPlainFile tree1.Branches with
      | .error err =>
        ⟨.ret none (some (NewExitError ("Error dumping file: ".toList ++ err.msg)
          c.ErrorDumpingTree)), tree1, [.Truncate b0 path, .EmitPlainFile tree1.Branches]⟩
      | .ok decrypted =>
        ⟨.ret (some decrypted) none, tree1, [.Truncate b0 path, .EmitPlainFile tree1.Branches]⟩
    | .ok (.str str) => ⟨.ret (some str) none, tree, [.Truncate b0 path]⟩
    | .ok v =>
      match c.EmitValue v with
      | .error err =>
        ⟨.ret none (some (NewExitError ("Error dumping tree: ".toList ++ err.msg)
          c.ErrorDumpingTree)), tree, [.Truncate b0 path, .EmitValue v]⟩
      | .ok bytes => ⟨.ret (some bytes) none, tree, [.Truncate b0 path, .EmitValue v]⟩

/-- The options `decryptOpts`; the cipher, the stores and the key services are
part of the collaborators. -/
structure decryptOpts where
  InputPath : Str
  Layers : Bool
  IgnoreMAC : Bool
  Extract : List PathElem
  deriving DecidableEq, Repr

/-- What a call of `decrypt` did: its result and the calls it made, in order. -/
structure DecryptRun (β σ μ : Type) where
  result : Result Str
  calls : List (Call β σ μ)

/-- The end of `decrypt`, after the layer stage: extraction or emission of
the whole tree.  `calls` are the calls made before. -/
def decryptOutput {β σ μ : Type} (c : Collab β σ μ) (opts : decryptOpts) (tree : Tree β μ)
    (calls : List (Call β σ μ)) : DecryptRun β σ μ :=
  if opts.Extract.length > 0 then
    let run := extract c tree opts.Extract
    ⟨run.result, calls ++ run.calls⟩
  else
    match c.EmitPlainFile tree.Branches with
    | .error err =>
      ⟨.ret none (some (NewExitError ("Error dumping file: ".toList ++ err.msg)
        c.ErrorDumpingTree)), calls ++ [.EmitPlainFile tree.Branches]⟩
    | .ok decryptedFile => ⟨.ret (some decryptedFile) none, calls ++ [.EmitPlainFile tree.Branches]⟩

/-- The layer stage of `decrypt` and what follows it. -/
def decryptLayered {β σ μ : Type} (sys : Sys) (c : Collab β σ μ) (opts : decryptOpts)
    (tree : Tree β μ) (calls : List (Call β σ μ)) : DecryptRun β σ μ :=
  if opts.Layers then
    let run := detectLayers sys opts.InputPath
    let calls1 := calls ++ run.probes.map Call.Stat
    match run.result with
    | .panic msg => ⟨.panic msg, calls1⟩
    | .ret _ (some err) => ⟨.ret none (some err), calls1⟩
    | .ret layers none =>
      match c.DecryptLayers tree (layers.getD []) with
      | .error err => ⟨.ret none (some err), calls1 ++ [.DecryptLayers tree (layers.getD [])]⟩
      | .ok tree1 => decryptOutput c opts tree1 (calls1 ++ [.DecryptLayers tree (layers.getD [])])
  else decryptOutput c opts tree calls

/-- The function `decrypt(opts)`. -/
def decrypt {β σ μ : Type} (sys : Sys) (c : Collab β σ μ) (opts : decryptOpts) :
    DecryptRun β σ μ :=
  match c.LoadEncryptedFileWithBugFixes opts.InputPath opts.IgnoreMAC with
  | .error err => ⟨.ret none (some err), [.LoadEncryptedFileWithBugFixes opts.InputPath opts.IgnoreMAC]⟩
  | .ok tree =>
    match c.DecryptTree opts.IgnoreMAC tree with
    | .error err =>
      ⟨.ret none (some err), [.LoadEncryptedFileWithBugFixes opts.InputPath opts.IgnoreMAC,
        .DecryptTree opts.IgnoreMAC tree]⟩
    | .ok tree1 =>
      decryptLayered sys c opts tree1 [.LoadEncryptedFileWithBugFixes opts.InputPath opts.IgnoreMAC,
        .DecryptTree opts.IgnoreMAC tree]

/-! ## Names for the intermediate values of `detectLayers` -/

/-- The value of `base` in `detectLayers`: the path without its extension. -/
def baseOf (path : Str) : Str := path.take (path.length - (Ext path).length)

/-- The value of `layerRaw` in `detectLayers`: the trailing digits of the base. -/
def layerRawOf (path : Str) : Str := FindString (baseOf path)

/-- The decimal value of the trailing digits of the base. -/
def layerOf (path : Str) : Nat := decimalValue (layerRawOf path)

/-- The value of `template` in `detectLayers`. -/
def templateOf (path : Str) : Str := layerTemplate path (layerRawOf path) (Ext path)

/-- The value of `layerPath` in `detectLayers` at `i`. -/
def render (sys : Sys) (path : Str) (i : Nat) : Str := sys.Sprintf (templateOf path) (i : Int)

/-- The rendered paths from `n` down to `1`. -/
def rendersFrom (sys : Sys) (path : Str) : Nat → List Str
  | 0 => []
  | n + 1 => render sys path (n + 1) :: rendersFrom sys path n

/-- The error of `detectLayers` for a layer path whose `os.Stat` failed with
`errno`. -/
def missingLayerError (sys : Sys) (layerPath errno : Str) : Error :=
  Errorf ("missing layer ".toList ++ sys.Quote layerPath ++ ": ".toList ++
    statErrorText layerPath errno)

/-! ## Concrete systems for the examples -/

/-- The quoting of `strconv.Quote` on a text of printable characters without
quote or backslash. -/
def quotePlain (s : Str) : Str := Char.ofNat 34 :: s ++ [Char.ofNat 34]

/-- The system whose files are `files`: `os.Stat` fails with `ENOENT` on any
other path, and `fmt.Sprintf` is the modelled fragment (the empty text on a
format outside the fragment, which no example uses). -/
def sysWith (files : List Str) : Sys where
  Sprintf := fun format i => (Sprintf format i).getD []
  Quote := quotePlain
  Stat := fun path => if path ∈ files then none else some "no such file or directory".toList

/-- The zero-padded decimal text of `i` in a field of `width` digits, in the
words of the specification. -/
def zeropad (i width : Nat) : Str :=
  List.replicate (width - (decimal i).length) '0' ++ decimal i

/-- The chain that the specification gives for the path `P ++ D ++ E`: the
layers from `N - 1` down to `1`, each in the digit width of `D`. -/
def claimedLayers (P D E : Str) : List Str :=
  (List.range (decimalValue D - 1)).map
    (fun k => P ++ zeropad (decimalValue D - 1 - k) D.length ++ E)

/-! ## A concrete document and concrete collaborators for the examples -/

/-- A document value of the examples: a text, a number, or a branch of keyed
values. -/
inductive Node where
  | text (s : Str)
  | number (n : Int)
  | map (items : List (Str × Node))

/-- A branch of the examples. -/
abbrev Branch := List (Str × Node)

/-- The dynamic type of a document value. -/
def Node.value : Node → Value Branch Int
  | .text s => .str s
  | .number n => .other n
  | .map items => .branch items

/-- Modelled from the spec: `Truncate` of package sops, whose code is not part
of the source.  It "navigates a document tree along a path and returns the
node found there (branch or leaf), or fails if the path is invalid". -/
def truncateNode : List PathElem → Node → Except Error Node
  | [], node => .ok node
  | .key k :: rest, .map items =>
    match items.lookup k with
    | some child => truncateNode rest child
    | none => .error (Errorf ("component not found: ".toList ++ k))
  | _ :: _, _ => .error (Errorf "component is not in a branch".toList)

/-- The stage of the pipeline that fails in an example. -/
inductive Stage where
  | nowhere
  | load
  | decryptTree
  | decryptLayers
  | emitPlainFile
  | emitValue
  deriving DecidableEq

/-- The document of the examples: `db.password` is the text `s3cr3t` and
`db.port` the number 5432; a second branch follows. -/
def demoTree : Tree Branch Unit where
  Branches :=
    [[("db".toList, Node.map [("password".toList, .text "s3cr3t".toList),
        ("port".toList, .number 5432)]),
      ("name".toList, .text "demo".toList)],
     [("second".toList, .number 2)]]
  Metadata := ()

/-- Collaborators for the examples: the loader returns `demoTree`, the
decryption steps leave the tree as it is, the emitters write the keys of the
branches or the value; the stage `fails` returns an error instead. -/
def demoCollab (fails : Stage) : Collab Branch Int Unit where
  LoadEncryptedFileWithBugFixes := fun _ _ =>
    if fails = .load then .error (Errorf "cannot load".toList) else .ok demoTree
  DecryptTree := fun _ tree =>
    if fails = .decryptTree then .error (Errorf "MAC mismatch".toList) else .ok tree
  DecryptLayers := fun tree _ =>
    if fails = .decryptLayers then .error (Errorf "cannot merge".toList) else .ok tree
  Truncate := fun b path => (truncateNode path (.map b)).map Node.value
  EmitPlainFile := fun branches =>
    if fails = .emitPlainFile then .error (Errorf "cannot emit".toList)
    else .ok (branches.flatMap (fun b => b.flatMap (fun kv => kv.1 ++ [':'])))
  EmitValue := fun v =>
    if fails = .emitValue then .error (Errorf "cannot emit value".toList)
    else match v with
      | .other n => .ok (fmtInteger false none n)
      | .str s => .ok (quotePlain s)
      | .branch _ => .error (Errorf "not a scalar".toList)
  ErrorDumpingTree := 4

/-! ## Kinds of calls -/

/-- Whether a call belongs to extraction or emission: `Truncate` or one of the
two emitters of the output store. -/
def Call.isOutput {β σ μ : Type} : Call β σ μ → Bool
  | .Truncate _ _ => true
  | .EmitPlainFile _ => true
  | .EmitValue _ => true
  | _ => false

/-- Whether a call is the layered merge `DecryptLayers`. -/
def Call.isDecryptLayers {β σ μ : Type} : Call β σ μ → Bool
  | .DecryptLayers _ _ => true
  | _ => false

/-- Whether a call is an existence check `os.Stat`. -/
def Call.isStat {β σ μ : Type} : Call β σ μ → Bool
  | .Stat _ => true
  | _ => false

/-- The stages of `decrypt` before the output succeeded: the loader and
`DecryptTree` returned a tree and, when the layered flag is set,
`detectLayers` returned a chain without error and `DecryptLayers` merged it.
`tree` is the tree that reaches the output and `pre` are the calls made up to
there. -/
def ReachesOutput {β σ μ : Type} (sys : Sys) (c : Collab β σ μ) (opts : decryptOpts)
    (tree : Tree β μ) (pre : List (Call β σ μ)) : Prop :=
  ∃ tree0 tree1,
    c.LoadEncryptedFileWithBugFixes opts.InputPath opts.IgnoreMAC = .ok tree0 ∧
    c.DecryptTree opts.IgnoreMAC tree0 = .ok tree1 ∧
    ((opts.Layers = false ∧ tree = tree1 ∧
        pre = [.LoadEncryptedFileWithBugFixes opts.InputPath opts.IgnoreMAC,
          .DecryptTree opts.IgnoreMAC tree0]) ∨
      (opts.Layers = true ∧ ∃ chain,
        (detectLayers sys opts.InputPath).result = .ret chain none ∧
        c.DecryptLayers tree1 (chain.getD []) = .ok tree ∧
        pre = [.LoadEncryptedFileWithBugFixes opts.InputPath opts.IgnoreMAC,
          .DecryptTree opts.IgnoreMAC tree0] ++
          (detectLayers sys opts.InputPath).probes.map Call.Stat ++
          [.DecryptLayers tree1 (chain.getD [])]))

/-! ## Definitions for the soundness of the template -/

/-- The decimal value of digits read after the value `acc`. -/
def valueFrom (acc : Nat) (ds : Str) : Nat := ds.foldl (fun n c => 10 * n + digitVal c) acc

/-- A run of `n` zeros followed by the digit 2. -/
def longDigits (n : Nat) : Str := List.replicate n '0' ++ ['2']

/-- The path `s00...02` with `n` zeros and no extension. -/
def longPath (n : Nat) : Str := 's' :: longDigits n

/-- Whether `X` occurs in `path` only at its end: no occurrence of `X` starts
at a position before `path.length - X.length`. -/
def occursOnlyAsSuffix (X path : Str) : Bool :=
  (List.range (path.length - X.length)).all (fun k => !X.isPrefixOf (path.drop k))

/-! ## Lemmas on the standard library -/

theorem FindString_digits (base : Str) : ∀ c ∈ FindString base, isDigit c = true := by
  intro c hc
  unfold FindString at hc
  rw [List.mem_reverse] at hc
  exact List.mem_takeWhile_imp hc

theorem FindString_eq_nil_iff (base : Str) :
    FindString base = [] ↔ ∀ c, base.getLast? = some c → isDigit c = false := by
  unfold FindString
  rw [List.reverse_eq_nil_iff, List.getLast?_eq_head?_reverse]
  cases base.reverse with
  | nil => simp
  | cons a l =>
    by_cases h : isDigit a = true <;> simp [List.takeWhile_cons, h]

theorem isDigit_not_sign (c : Char) (h : isDigit c = true) : (c == '+' || c == '-') = false := by
  by_cases h1 : c = '+'
  · subst h1; exact absurd h (by decide)
  · by_cases h2 : c = '-'
    · subst h2; exact absurd h (by decide)
    · simp [h1, h2]

theorem ParseInt_digits (s : Str) (hne : s ≠ []) (hd : ∀ c ∈ s, isDigit c = true) :
    ParseInt s = if decimalValue s ≤ maxInt64 then .ok (decimalValue s : Int)
      else .error .ErrRange := by
  cases s with
  | nil => exact absurd rfl hne
  | cons c rest =>
    have hc : isDigit c = true := hd c (List.mem_cons_self _ _)
    have hplus : c ≠ '+' := by
      intro h; subst h; exact absurd hc (by decide)
    have hminus : c ≠ '-' := by
      intro h; subst h; exact absurd hc (by decide)
    unfold ParseInt
    by_cases hle : decimalValue (c :: rest) ≤ maxInt64
    · simp [hplus, hminus, hle, Nat.not_lt.mpr hle]
      exact ⟨hc, fun x hx => hd x (List.mem_cons_of_mem _ hx)⟩
    · simp [hplus, hminus, hle, Nat.lt_of_not_le hle]
      exact ⟨hc, fun x hx => hd x (List.mem_cons_of_mem _ hx)⟩

theorem detectLayers_unfold (sys : Sys) (path : Str) :
    detectLayers sys path =
      if layerRawOf path = [] then
        ⟨.ret none (some (Errorf ("could not extract layer from ".toList ++ path))), []⟩
      else
        match ParseInt (layerRawOf path) with
        | .error e =>
          ⟨.ret none (some (Errorf ("could not parse layer ".toList ++ layerRawOf path ++
            ": ".toList ++ parseErrorText sys (layerRawOf path) e))), []⟩
        | .ok layer =>
          if makesliceOK layer then layerLoop sys (templateOf path) (layer - 1).toNat [] []
          else ⟨.panic "runtime error: makeslice: cap out of range".toList, []⟩ := rfl

/-! ## Lemmas on the loop of `detectLayers` -/

theorem mem_rendersFrom (sys : Sys) (path : Str) (p : Str) :
    ∀ n, p ∈ rendersFrom sys path n ↔ ∃ i, 1 ≤ i ∧ i ≤ n ∧ p = render sys path i := by
  intro n
  induction n with
  | zero =>
    simp only [rendersFrom, List.not_mem_nil, false_iff]
    rintro ⟨i, h1, h2, _⟩
    omega
  | succ n ih =>
    simp only [rendersFrom, List.mem_cons, ih]
    constructor
    · rintro (h | ⟨i, h1, h2, h3⟩)
      · exact ⟨n + 1, by omega, le_refl _, h⟩
      · exact ⟨i, h1, by omega, h3⟩
    · rintro ⟨i, h1, h2, h3⟩
      by_cases hi : i = n + 1
      · left; rw [h3, hi]
      · right; exact ⟨i, h1, by omega, h3⟩

theorem length_rendersFrom (sys : Sys) (path : Str) :
    ∀ n, (rendersFrom sys path n).length = n := by
  intro n
  induction n with
  | zero => rfl
  | succ n ih => simp [rendersFrom, ih]

theorem layerLoop_succ (sys : Sys) (path : Str) (n : Nat) (layers probes : List Str) :
    layerLoop sys (templateOf path) (n + 1) layers probes =
      match sys.Stat (render sys path (n + 1)) with
      | some errno =>
        ⟨.ret none (some (missingLayerError sys (render sys path (n + 1)) errno)),
          probes ++ [render sys path (n + 1)]⟩
      | none =>
        layerLoop sys (templateOf path) n (layers ++ [render sys path (n + 1)])
          (probes ++ [render sys path (n + 1)]) := rfl

theorem layerLoop_all_exist (sys : Sys) (path : Str) :
    ∀ n layers probes, (∀ i, 1 ≤ i → i ≤ n → sys.Stat (render sys path i) = none) →
      layerLoop sys (templateOf path) n layers probes =
        ⟨.ret (some (layers ++ rendersFrom sys path n)) none,
          probes ++ rendersFrom sys path n⟩ := by
  intro n
  induction n with
  | zero => intro layers probes _; simp [layerLoop, rendersFrom]
  | succ n ih =>
    intro layers probes h
    rw [layerLoop_succ, h (n + 1) (by omega) (le_refl _)]
    simp only
    rw [ih _ _ (fun i h1 h2 => h i h1 (by omega))]
    simp [rendersFrom]

theorem layerLoop_missing (sys : Sys) (path : Str) (m : Nat) (errno : Str) (hm : 1 ≤ m)
    (hstat : sys.Stat (render sys path m) = some errno) :
    ∀ n layers probes, m ≤ n →
      (∀ i, m < i → i ≤ n → sys.Stat (render sys path i) = none) →
      layerLoop sys (templateOf path) n layers probes =
        ⟨.ret none (some (missingLayerError sys (render sys path m) errno)),
          probes ++ (rendersFrom sys path n).take (n + 1 - m)⟩ := by
  intro n
  induction n with
  | zero => intro _ _ h; omega
  | succ n ih =>
    intro layers probes hmn h
    rw [layerLoop_succ]
    by_cases hi : m = n + 1
    · subst hi
      rw [hstat]
      simp [rendersFrom]
    · rw [h (n + 1) (by omega) (le_refl _)]
      simp only
      rw [ih _ _ (by omega) (fun i h1 h2 => h i h1 (by omega))]
      have : n + 1 + 1 - m = (n + 1 - m) + 1 := by omega
      rw [this]
      simp [rendersFrom]

theorem layerLoop_ret_some (sys : Sys) (path : Str) :
    ∀ n layers probes chain err,
      (layerLoop sys (templateOf path) n layers probes).result = .ret (some chain) err →
      chain = layers ++ rendersFrom sys path n := by
  intro n
  induction n with
  | zero =>
    intro layers probes chain err h
    simp only [layerLoop, Result.ret.injEq, Option.some.injEq] at h
    simp [rendersFrom, h.1]
  | succ n ih =>
    intro layers probes chain err h
    rw [layerLoop_succ] at h
    cases hs : sys.Stat (render sys path (n + 1)) with
    | some errno =>
      rw [hs] at h
      simp at h
    | none =>
      rw [hs] at h
      simp only at h
      rw [ih _ _ _ _ h]
      simp [rendersFrom]

theorem layerRawOf_digits (path : Str) : ∀ c ∈ layerRawOf path, isDigit c = true :=
  FindString_digits (baseOf path)

theorem ParseInt_layerRawOf (path : Str) (hraw : layerRawOf path ≠ []) :
    ParseInt (layerRawOf path) =
      if layerOf path ≤ maxInt64 then .ok (layerOf path : Int) else .error .ErrRange :=
  ParseInt_digits (layerRawOf path) hraw (layerRawOf_digits path)

theorem detectLayers_of_layer (sys : Sys) (path : Str) (hraw : layerRawOf path ≠ [])
    (hle : layerOf path ≤ maxInt64) :
    detectLayers sys path =
      if makesliceOK (layerOf path : Int) then
        layerLoop sys (templateOf path) (layerOf path - 1) [] []
      else ⟨.panic "runtime error: makeslice: cap out of range".toList, []⟩ := by
  rw [detectLayers_unfold, if_neg hraw, ParseInt_layerRawOf path hraw, if_pos hle]
  have : ((layerOf path : Int) - 1).toNat = layerOf path - 1 := by omega
  simp only [this]

theorem makesliceOK_of_le (n : Nat) (h : stringSize * n ≤ maxAlloc) :
    makesliceOK (n : Int) = true := by
  unfold makesliceOK
  simp only [Int.toNat_ofNat, Bool.and_eq_true, decide_eq_true_eq]
  exact ⟨Int.ofNat_nonneg n, h⟩

theorem makesliceOK_iff (n : Nat) : makesliceOK (n : Int) = true ↔ stringSize * n ≤ maxAlloc := by
  unfold makesliceOK
  simp only [Int.toNat_ofNat, Bool.and_eq_true, decide_eq_true_eq]
  exact ⟨fun h => h.2, fun h => ⟨Int.ofNat_nonneg n, h⟩⟩

/-! ## The layer resolver within the capacity of the allocation -/

theorem layerOf_le_maxInt64 (path : Str) (hcap : stringSize * layerOf path ≤ maxAlloc) :
    layerOf path ≤ maxInt64 := by
  unfold stringSize maxAlloc at hcap
  unfold maxInt64
  omega

theorem detectLayers_in_capacity (sys : Sys) (path : Str) (hraw : layerRawOf path ≠ [])
    (hcap : stringSize * layerOf path ≤ maxAlloc) :
    detectLayers sys path = layerLoop sys (templateOf path) (layerOf path - 1) [] [] := by
  rw [detectLayers_of_layer sys path hraw (layerOf_le_maxInt64 path hcap),
    if_pos (makesliceOK_of_le _ hcap)]

theorem detectLayers_all_exist (sys : Sys) (path : Str) (hraw : layerRawOf path ≠ [])
    (hcap : stringSize * layerOf path ≤ maxAlloc)
    (hall : ∀ i, 1 ≤ i → i < layerOf path → sys.Stat (render sys path i) = none) :
    detectLayers sys path =
      ⟨.ret (some (rendersFrom sys path (layerOf path - 1))) none,
        rendersFrom sys path (layerOf path - 1)⟩ := by
  rw [detectLayers_in_capacity sys path hraw hcap,
    layerLoop_all_exist sys path _ _ _ (fun i h1 h2 => hall i h1 (by omega))]
  simp

theorem detectLayers_first_missing (sys : Sys) (path : Str) (hraw : layerRawOf path ≠ [])
    (hcap : stringSize * layerOf path ≤ maxAlloc) (m : Nat) (errno : Str) (hm : 1 ≤ m)
    (hlt : m < layerOf path) (hstat : sys.Stat (render sys path m) = some errno)
    (habove : ∀ i, m < i → i < layerOf path → sys.Stat (render sys path i) = none) :
    detectLayers sys path =
      ⟨.ret none (some (missingLayerError sys (render sys path m) errno)),
        (rendersFrom sys path (layerOf path - 1)).take (layerOf path - m)⟩ := by
  rw [detectLayers_in_capacity sys path hraw hcap,
    layerLoop_missing sys path m errno hm hstat _ _ _ (by omega)
      (fun i h1 h2 => habove i h1 (by omega))]
  have : layerOf path - 1 + 1 - m = layerOf path - m := by omega
  simp [this]

theorem exists_first_missing (sys : Sys) (path : Str) (n : Nat)
    (h : ∃ i, 1 ≤ i ∧ i < n ∧ sys.Stat (render sys path i) ≠ none) :
    ∃ m errno, 1 ≤ m ∧ m < n ∧ sys.Stat (render sys path m) = some errno ∧
      ∀ i, m < i → i < n → sys.Stat (render sys path i) = none := by
  obtain ⟨i, h1, h2, h3⟩ := h
  let P : Nat → Prop := fun k => 1 ≤ k ∧ sys.Stat (render sys path k) ≠ none
  have hP : P i := ⟨h1, h3⟩
  have hspec : P (Nat.findGreatest P (n - 1)) :=
    Nat.findGreatest_spec (by omega : i ≤ n - 1) hP
  have hle : Nat.findGreatest P (n - 1) ≤ n - 1 := Nat.findGreatest_le (n - 1)
  obtain ⟨errno, herr⟩ := Option.ne_none_iff_exists'.mp hspec.2
  refine ⟨Nat.findGreatest P (n - 1), errno, hspec.1, by omega, herr, ?_⟩
  intro k hk1 hk2
  by_contra hne
  exact Nat.findGreatest_is_greatest hk1 (by omega : k ≤ n - 1) ⟨by omega, hne⟩

theorem detectLayers_error_iff_missing (sys : Sys) (path : Str) (hraw : layerRawOf path ≠ [])
    (hcap : stringSize * layerOf path ≤ maxAlloc) :
    ((∃ e, (detectLayers sys path).result = .ret none (some e)) ↔
      ∃ i, 1 ≤ i ∧ i < layerOf path ∧ sys.Stat (render sys path i) ≠ none) := by
  constructor
  · rintro ⟨e, he⟩
    by_contra hno
    have hall : ∀ i, 1 ≤ i → i < layerOf path → sys.Stat (render sys path i) = none := by
      intro i h1 h2
      by_contra hne
      exact hno ⟨i, h1, h2, hne⟩
    rw [detectLayers_all_exist sys path hraw hcap hall] at he
    simp at he
  · intro h
    obtain ⟨m, errno, h1, h2, h3, h4⟩ := exists_first_missing sys path _ h
    exact ⟨_, by rw [detectLayers_first_missing sys path hraw hcap m errno h1 h2 h3 h4]⟩

theorem detectLayers_missing_names_path (sys : Sys) (path : Str)
    (hraw : layerRawOf path ≠ []) (hcap : stringSize * layerOf path ≤ maxAlloc)
    (h : ∃ i, 1 ≤ i ∧ i < layerOf path ∧ sys.Stat (render sys path i) ≠ none) :
    ∃ m errno, 1 ≤ m ∧ m < layerOf path ∧ sys.Stat (render sys path m) = some errno ∧
      (∀ i, m < i → i < layerOf path → sys.Stat (render sys path i) = none) ∧
      detectLayers sys path =
        ⟨.ret none (some (missingLayerError sys (render sys path m) errno)),
          (rendersFrom sys path (layerOf path - 1)).take (layerOf path - m)⟩ ∧
      render sys path m <:+: (missingLayerError sys (render sys path m) errno).msg := by
  obtain ⟨m, errno, h1, h2, h3, h4⟩ := exists_first_missing sys path _ h
  refine ⟨m, errno, h1, h2, h3, h4,
    detectLayers_first_missing sys path hraw hcap m errno h1 h2 h3 h4, ?_⟩
  refine ⟨"missing layer ".toList ++ sys.Quote (render sys path m) ++ ": ".toList ++
    "stat ".toList, ": ".toList ++ errno, ?_⟩
  simp [missingLayerError, Errorf, statErrorText, List.append_assoc]

theorem detectLayers_secrets003 :
    detectLayers (sysWith ["secrets001.yaml".toList, "secrets002.yaml".toList])
        "secrets003.yaml".toList =
      ⟨.ret (some ["secrets002.yaml".toList, "secrets001.yaml".toList]) none,
        ["secrets002.yaml".toList, "secrets001.yaml".toList]⟩ := by rfl

theorem detectLayers_secrets003_missing :
    detectLayers (sysWith ["secrets002.yaml".toList]) "secrets003.yaml".toList =
      ⟨.ret none (some (Errorf ("missing layer ".toList ++ quotePlain "secrets001.yaml".toList ++
          ": stat secrets001.yaml: no such file or directory".toList))),
        ["secrets002.yaml".toList, "secrets001.yaml".toList]⟩ := by rfl

/-! ## The layer resolver: claims -/

/-- C1, evaluated where it fails: the path `a3.yaml/b3.yaml` has the form
`P ++ D ++ E` of the claim with `P = a3.yaml/b`, `D = 3`, `E = .yaml`, `N = 3`,
and both layer files `a3.yaml/b2.yaml` and `a3.yaml/b1.yaml` exist, so the
claim gives the chain of these two; but the suffix `3.yaml` occurs twice in
the path, the template has two directives, the first rendered path is
`a2.yaml/b%!d(MISSING).yaml`, and `detectLayers` returns the error for this
missing layer after one probe. -/
theorem detectLayers_repeated_suffix :
    "a3.yaml/b3.yaml".toList = "a3.yaml/b".toList ++ "3".toList ++ ".yaml".toList ∧
    Ext "a3.yaml/b3.yaml".toList = ".yaml".toList ∧
    layerRawOf "a3.yaml/b3.yaml".toList = "3".toList ∧
    ParseInt "3".toList = .ok 3 ∧
    claimedLayers "a3.yaml/b".toList "3".toList ".yaml".toList =
      ["a3.yaml/b2.yaml".toList, "a3.yaml/b1.yaml".toList] ∧
    (∀ p ∈ claimedLayers "a3.yaml/b".toList "3".toList ".yaml".toList,
      (sysWith ["a3.yaml/b2.yaml".toList, "a3.yaml/b1.yaml".toList]).Stat p = none) ∧
    templateOf "a3.yaml/b3.yaml".toList = "a%01d.yaml/b%01d.yaml".toList ∧
    detectLayers (sysWith ["a3.yaml/b2.yaml".toList, "a3.yaml/b1.yaml".toList])
        "a3.yaml/b3.yaml".toList =
      ⟨.ret none (some (missingLayerError (sysWith ["a3.yaml/b2.yaml".toList, "a3.yaml/b1.yaml".toList])
          "a2.yaml/b%!d(MISSING).yaml".toList "no such file or directory".toList)),
        ["a2.yaml/b%!d(MISSING).yaml".toList]⟩ := by
  refine ⟨by rfl, by rfl, by rfl, by rfl, by rfl, by decide, by rfl, by rfl⟩

/-- C2, evaluated where it fails: for the path
`secrets9223372036854775807.yaml` the digits parse to `N = 2^63 - 1 > 1` and,
with no file present, the layer `N - 1` is missing, so the claim gives an
error return; `detectLayers` ends in the panic of `make([]string, 0, layer)`
before any probe and returns nothing. -/
theorem detectLayers_maxInt64_panics :
    ParseInt (layerRawOf "secrets9223372036854775807.yaml".toList) = .ok (2 ^ 63 - 1) ∧
    (sysWith []).Stat (render (sysWith []) "secrets9223372036854775807.yaml".toList
      (2 ^ 63 - 2)) ≠ none ∧
    detectLayers (sysWith []) "secrets9223372036854775807.yaml".toList =
      ⟨.panic "runtime error: makeslice: cap out of range".toList, []⟩ := by
  refine ⟨by rfl, by simp [sysWith], by rfl⟩

/-- C3, evaluated where it fails: for the path
`secrets4611686018427387904.yaml` the digits parse to `N = 2^62 > 1` and, with
no file present, every layer is missing; `detectLayers` returns no error
naming a missing layer, it ends in the panic of `make([]string, 0, layer)`
without a probe. -/
theorem detectLayers_huge_layer_no_error :
    ParseInt (layerRawOf "secrets4611686018427387904.yaml".toList) = .ok (2 ^ 62) ∧
    (∀ p, (sysWith []).Stat p ≠ none) ∧
    (∀ chain err, (detectLayers (sysWith []) "secrets4611686018427387904.yaml".toList).result ≠
      .ret chain err) ∧
    (detectLayers (sysWith []) "secrets4611686018427387904.yaml".toList).probes = [] := by
  have h : detectLayers (sysWith []) "secrets4611686018427387904.yaml".toList =
      ⟨.panic "runtime error: makeslice: cap out of range".toList, []⟩ := by rfl
  refine ⟨by rfl, by simp [sysWith], ?_, by rw [h]⟩
  intro chain err
  rw [h]
  exact fun hh => Result.noConfusion hh

/-- C4: when the base of the path (the path without its extension) does not
end in a decimal digit, `detectLayers` returns a nil chain and the error
`could not extract layer from <path>`, whose message ends with the path, for
every system, and makes no existence check. -/
theorem detectLayers_no_trailing_digit (sys : Sys) (path : Str)
    (h : ∀ c, (baseOf path).getLast? = some c → isDigit c = false) :
    detectLayers sys path =
        ⟨.ret none (some (Errorf ("could not extract layer from ".toList ++ path))), []⟩ ∧
      path <:+ (Errorf ("could not extract layer from ".toList ++ path)).msg := by
  have hraw : layerRawOf path = [] := (FindString_eq_nil_iff (baseOf path)).mpr h
  rw [detectLayers_unfold, if_pos hraw]
  exact ⟨rfl, List.suffix_append _ _⟩

/-- C4 on the two paths of the claim, whose only digits are in a directory
name or in the extension. -/
theorem detectLayers_no_trailing_digit_witness :
    (detectLayers (sysWith ["v1/secrets.yaml".toList]) "v2/secrets.yaml".toList =
        ⟨.ret none (some (Errorf "could not extract layer from v2/secrets.yaml".toList)), []⟩ ∧
      "v2/secrets.yaml".toList <:+
        (Errorf "could not extract layer from v2/secrets.yaml".toList).msg) ∧
    (detectLayers (sysWith []) "secrets.003".toList =
        ⟨.ret none (some (Errorf "could not extract layer from secrets.003".toList)), []⟩ ∧
      "secrets.003".toList <:+
        (Errorf "could not extract layer from secrets.003".toList).msg) :=
  ⟨detectLayers_no_trailing_digit _ "v2/secrets.yaml".toList (by decide),
    detectLayers_no_trailing_digit _ "secrets.003".toList (by decide)⟩

/-- C5: when the trailing digits of the base have value 0 or 1,
`detectLayers` returns the empty chain and no error, for every system and
without an existence check; and for every path and system, a chain that
`detectLayers` returns is non-empty only if `N ≥ 2`, and each of its entries
is the template rendered with some `i` in `1..N-1`. -/
theorem detectLayers_small_layer (sys : Sys) (path : Str) :
    (layerRawOf path ≠ [] → layerOf path ≤ 1 →
      detectLayers sys path = ⟨.ret (some []) none, []⟩) ∧
    (∀ chain err, (detectLayers sys path).result = .ret (some chain) err →
      (chain ≠ [] → 2 ≤ layerOf path) ∧
      ∀ p ∈ chain, ∃ i, 1 ≤ i ∧ i < layerOf path ∧ p = render sys path i) := by
  constructor
  · intro hraw hN
    have hcap : stringSize * layerOf path ≤ maxAlloc := by
      unfold stringSize maxAlloc; omega
    rw [detectLayers_all_exist sys path hraw hcap (fun i h1 h2 => by omega)]
    have h0 : layerOf path - 1 = 0 := by omega
    rw [h0]
    rfl
  · intro chain err h
    rw [detectLayers_unfold] at h
    by_cases hraw : layerRawOf path = []
    · rw [if_pos hraw] at h
      simp at h
    · rw [if_neg hraw, ParseInt_layerRawOf path hraw] at h
      by_cases hle : layerOf path ≤ maxInt64
      · rw [if_pos hle] at h
        simp only at h
        by_cases hcap : makesliceOK (layerOf path : Int) = true
        · rw [if_pos hcap] at h
          have hc := layerLoop_ret_some sys path _ _ _ _ _ h
          have hn : ((layerOf path : Int) - 1).toNat = layerOf path - 1 := by omega
          rw [hn, List.nil_append] at hc
          subst hc
          constructor
          · intro hne
            by_contra hlt
            have h0 : layerOf path - 1 = 0 := by omega
            rw [h0] at hne
            exact hne rfl
          · intro p hp
            obtain ⟨i, h1, h2, h3⟩ := (mem_rendersFrom sys path p _).mp hp
            exact ⟨i, h1, by omega, h3⟩
        · rw [if_neg hcap] at h
          simp at h
      · rw [if_neg hle] at h
        simp at h

/-- C5 on the paths of the claim: layer numbers 1, 1 and 0 give the empty
chain whatever files exist. -/
theorem detectLayers_small_layer_witness :
    detectLayers (sysWith []) "secrets1.yaml".toList = ⟨.ret (some []) none, []⟩ ∧
    detectLayers (sysWith ["secrets000.yaml".toList]) "secrets001.yaml".toList =
      ⟨.ret (some []) none, []⟩ ∧
    detectLayers (sysWith []) "secrets000.yaml".toList = ⟨.ret (some []) none, []⟩ :=
  ⟨(detectLayers_small_layer _ "secrets1.yaml".toList).1 (by decide) (by decide),
    (detectLayers_small_layer _ "secrets001.yaml".toList).1 (by decide) (by decide),
    (detectLayers_small_layer _ "secrets000.yaml".toList).1 (by decide) (by decide)⟩

/-! ## Extraction: claims -/

/-- C6: on a tree with a first branch, when `Truncate` on that branch returns
a string `s`, `extract` returns exactly the content of `s` with a nil error,
leaves the tree as it is, and its only call is `Truncate`: neither emitter of
the output store is invoked. -/
theorem extract_string {β σ μ : Type} (c : Collab β σ μ) (tree : Tree β μ)
    (path : List PathElem) (b0 : β) (bs : List β) (s : Str)
    (hb : tree.Branches = b0 :: bs) (ht : c.Truncate b0 path = .ok (.str s)) :
    extract c tree path = ⟨.ret (some s) none, tree, [.Truncate b0 path]⟩ := by
  unfold extract
  rw [hb]
  simp only [ht]

/-- C6 on the example of the claim: the path `["db", "password"]` on a tree
whose `db.password` is `s3cr3t` returns `s3cr3t`. -/
theorem extract_string_witness :
    extract (demoCollab .nowhere) demoTree [.key "db".toList, .key "password".toList] =
      ⟨.ret (some "s3cr3t".toList) none, demoTree,
        [.Truncate (demoTree.Branches.headD []) [.key "db".toList, .key "password".toList]]⟩ :=
  extract_string (demoCollab .nowhere) demoTree _ _ _ _ rfl rfl

/-- C7: on a tree with a first branch, when `Truncate` on that branch returns
a branch `v`, `extract` replaces the first branch by `v`, keeps the later
branches, and calls `EmitPlainFile` on that list of branches, after
`Truncate` and nothing else: the output is what `EmitPlainFile` returned (on
its failure, no output and the dumping error), and `EmitValue` is never
invoked. -/
theorem extract_branch {β σ μ : Type} (c : Collab β σ μ) (tree : Tree β μ)
    (path : List PathElem) (b0 : β) (bs : List β) (v : β)
    (hb : tree.Branches = b0 :: bs) (ht : c.Truncate b0 path = .ok (.branch v)) :
    extract c tree path =
      ⟨match c.EmitPlainFile (v :: bs) with
        | .ok decrypted => .ret (some decrypted) none
        | .error err => .ret none (some (NewExitError ("Error dumping file: ".toList ++ err.msg)
            c.ErrorDumpingTree)),
        { tree with Branches := v :: bs },
        [.Truncate b0 path, .EmitPlainFile (v :: bs)]⟩ := by
  unfold extract
  rw [hb]
  simp only [ht]
  cases c.EmitPlainFile (v :: bs) <;> rfl

/-- C7 on an example: the path `["db"]` selects a branch, and the document
emitter writes the keys of that branch and of the second branch. -/
theorem extract_branch_witness :
    (extract (demoCollab .nowhere) demoTree [.key "db".toList]).result =
      .ret (some "password:port:second:".toList) none :=
  congrArg ExtractRun.result
    (extract_branch (demoCollab .nowhere) demoTree [.key "db".toList] _ _ _ rfl rfl)

/-- C8: on a tree with a first branch, when `Truncate` on that branch returns
a value `o` that is neither a branch nor a string, `extract` calls `EmitValue`
on that value, after `Truncate` and nothing else: the output is what
`EmitValue` returned (on its failure, no output and the dumping error), the
tree is as it was, and `EmitPlainFile` is never invoked. -/
theorem extract_other {β σ μ : Type} (c : Collab β σ μ) (tree : Tree β μ)
    (path : List PathElem) (b0 : β) (bs : List β) (o : σ)
    (hb : tree.Branches = b0 :: bs) (ht : c.Truncate b0 path = .ok (.other o)) :
    extract c tree path =
      ⟨match c.EmitValue (.other o) with
        | .ok bytes => .ret (some bytes) none
        | .error err => .ret none (some (NewExitError ("Error dumping tree: ".toList ++ err.msg)
            c.ErrorDumpingTree)),
        tree, [.Truncate b0 path, .EmitValue (.other o)]⟩ := by
  unfold extract
  rw [hb]
  simp only [ht]
  cases c.EmitValue (.other o) <;> rfl

/-- C8 on an example: the path `["db", "port"]` selects the number 5432, and
the value emitter writes it. -/
theorem extract_other_witness :
    (extract (demoCollab .nowhere) demoTree [.key "db".toList, .key "port".toList]).result =
      .ret (some "5432".toList) none :=
  congrArg ExtractRun.result
    (extract_other (demoCollab .nowhere) demoTree [.key "db".toList, .key "port".toList]
      _ _ _ rfl rfl)

/-- C9: on a tree with a first branch, when `Truncate` on that branch fails
with the error `cause`, `extract` returns no output and the error
`error truncating tree: <message of cause>`, whose message ends with the
message of the cause; the tree is as it was and the only call is `Truncate`:
neither emitter is invoked. -/
theorem extract_truncate_error {β σ μ : Type} (c : Collab β σ μ) (tree : Tree β μ)
    (path : List PathElem) (b0 : β) (bs : List β) (cause : Error)
    (hb : tree.Branches = b0 :: bs) (ht : c.Truncate b0 path = .error cause) :
    extract c tree path =
        ⟨.ret none (some (Errorf ("error truncating tree: ".toList ++ cause.msg))), tree,
          [.Truncate b0 path]⟩ ∧
      cause.msg <:+ (Errorf ("error truncating tree: ".toList ++ cause.msg)).msg := by
  constructor
  · unfold extract
    rw [hb]
    simp only [ht]
  · exact List.suffix_append _ _

/-- C9 on an example: the key `user` is not in the branch `db`. -/
theorem extract_truncate_error_witness :
    (extract (demoCollab .nowhere) demoTree [.key "db".toList, .key "user".toList]).result =
      .ret none (some (Errorf "error truncating tree: component not found: user".toList)) :=
  congrArg ExtractRun.result
    (extract_truncate_error (demoCollab .nowhere) demoTree
      [.key "db".toList, .key "user".toList] _ _ _ rfl rfl).1

/-! ## The pipeline: claims -/

theorem extract_error_nil {β σ μ : Type} (c : Collab β σ μ) (tree : Tree β μ)
    (path : List PathElem) (out : Option Str) (e : Error)
    (h : (extract c tree path).result = .ret out (some e)) : out = none := by
  unfold extract at h
  split at h
  · simp at h
  · split at h
    · simp only [Result.ret.injEq] at h; exact h.1.symm
    · dsimp only at h
      split at h
      · simp only [Result.ret.injEq] at h; exact h.1.symm
      · simp at h
    · simp at h
    · split at h
      · simp only [Result.ret.injEq] at h; exact h.1.symm
      · simp at h

theorem decryptOutput_error_nil {β σ μ : Type} (c : Collab β σ μ) (opts : decryptOpts)
    (tree : Tree β μ) (calls : List (Call β σ μ)) (out : Option Str) (e : Error)
    (h : (decryptOutput c opts tree calls).result = .ret out (some e)) : out = none := by
  unfold decryptOutput at h
  split at h
  · exact extract_error_nil c tree opts.Extract out e h
  · split at h
    · simp only [Result.ret.injEq] at h; exact h.1.symm
    · simp at h

theorem decryptLayered_error_nil {β σ μ : Type} (sys : Sys) (c : Collab β σ μ)
    (opts : decryptOpts) (tree : Tree β μ) (calls : List (Call β σ μ)) (out : Option Str)
    (e : Error) (h : (decryptLayered sys c opts tree calls).result = .ret out (some e)) :
    out = none := by
  unfold decryptLayered at h
  split at h
  · dsimp only at h
    split at h
    · simp at h
    · simp only [Result.ret.injEq] at h; exact h.1.symm
    · split at h
      · simp only [Result.ret.injEq] at h; exact h.1.symm
      · exact decryptOutput_error_nil c opts _ _ out e h
  · exact decryptOutput_error_nil c opts _ _ out e h

/-- C10: `decrypt` is fail-fast and returns the errors of its collaborators as
they are.  When the loader fails with `e`, `decrypt` returns `(nil, e)` and its
only call is the loader.  When the decryption of the tree fails with `e`, it
returns `(nil, e)` after the loader and `DecryptTree` only.  When the layered
flag is set and `detectLayers` returns the error `e`, it returns `(nil, e)`
after the loader, `DecryptTree` and the existence checks of `detectLayers`
only; when the merge `DecryptLayers` then fails with `e`, it returns `(nil, e)`
with the merge as the last call: no `Truncate` and no emitter is called.  And
whenever `decrypt` returns an error, its output is nil. -/
theorem decrypt_fail_fast {β σ μ : Type} (sys : Sys) (c : Collab β σ μ) (opts : decryptOpts) :
    (∀ e, c.LoadEncryptedFileWithBugFixes opts.InputPath opts.IgnoreMAC = .error e →
      decrypt sys c opts =
        ⟨.ret none (some e), [.LoadEncryptedFileWithBugFixes opts.InputPath opts.IgnoreMAC]⟩) ∧
    (∀ tree e, c.LoadEncryptedFileWithBugFixes opts.InputPath opts.IgnoreMAC = .ok tree →
      c.DecryptTree opts.IgnoreMAC tree = .error e →
      decrypt sys c opts =
        ⟨.ret none (some e), [.LoadEncryptedFileWithBugFixes opts.InputPath opts.IgnoreMAC,
          .DecryptTree opts.IgnoreMAC tree]⟩) ∧
    (∀ tree tree1 chain e,
      c.LoadEncryptedFileWithBugFixes opts.InputPath opts.IgnoreMAC = .ok tree →
      c.DecryptTree opts.IgnoreMAC tree = .ok tree1 →
      opts.Layers = true →
      (detectLayers sys opts.InputPath).result = .ret chain (some e) →
      decrypt sys c opts =
        ⟨.ret none (some e), [.LoadEncryptedFileWithBugFixes opts.InputPath opts.IgnoreMAC,
          .DecryptTree opts.IgnoreMAC tree] ++
          (detectLayers sys opts.InputPath).probes.map Call.Stat⟩) ∧
    (∀ tree tree1 chain e,
      c.LoadEncryptedFileWithBugFixes opts.InputPath opts.IgnoreMAC = .ok tree →
      c.DecryptTree opts.IgnoreMAC tree = .ok tree1 →
      opts.Layers = true →
      (detectLayers sys opts.InputPath).result = .ret chain none →
      c.DecryptLayers tree1 (chain.getD []) = .error e →
      decrypt sys c opts =
        ⟨.ret none (some e), [.LoadEncryptedFileWithBugFixes opts.InputPath opts.IgnoreMAC,
          .DecryptTree opts.IgnoreMAC tree] ++
          (detectLayers sys opts.InputPath).probes.map Call.Stat ++
          [.DecryptLayers tree1 (chain.getD [])]⟩) ∧
    (∀ out e, (decrypt sys c opts).result = .ret out (some e) → out = none) := by
  refine ⟨?_, ?_, ?_, ?_, ?_⟩
  · intro e hl
    unfold decrypt
    simp only [hl]
  · intro tree e hl hd
    unfold decrypt
    simp only [hl, hd]
  · intro tree tree1 chain e hl hd hlay hres
    unfold decrypt
    simp only [hl, hd]
    unfold decryptLayered
    simp only [hlay, if_true, hres]
  · intro tree tree1 chain e hl hd hlay hres hmerge
    unfold decrypt
    simp only [hl, hd]
    unfold decryptLayered
    simp only [hlay, if_true, hres, hmerge]
  · intro out e h
    unfold decrypt at h
    split at h
    · simp only [Result.ret.injEq] at h; exact h.1.symm
    · split at h
      · simp only [Result.ret.injEq] at h; exact h.1.symm
      · exact decryptLayered_error_nil sys c opts _ _ out e h

/-- C10 on examples: a failing loader, a failing tree decryption, a missing
layer and a failing merge each end the pipeline with the error of that stage
and no output. -/
theorem decrypt_fail_fast_witness :
    decrypt (sysWith []) (demoCollab .load) ⟨"secrets003.yaml".toList, true, false, []⟩ =
      ⟨.ret none (some (Errorf "cannot load".toList)),
        [.LoadEncryptedFileWithBugFixes "secrets003.yaml".toList false]⟩ ∧
    decrypt (sysWith []) (demoCollab .decryptTree) ⟨"secrets003.yaml".toList, true, false, []⟩ =
      ⟨.ret none (some (Errorf "MAC mismatch".toList)),
        [.LoadEncryptedFileWithBugFixes "secrets003.yaml".toList false,
          .DecryptTree false demoTree]⟩ ∧
    (decrypt (sysWith ["secrets002.yaml".toList]) (demoCollab .nowhere)
        ⟨"secrets003.yaml".toList, true, false, []⟩).result =
      .ret none (some (missingLayerError (sysWith []) "secrets001.yaml".toList
        "no such file or directory".toList)) ∧
    (decrypt (sysWith ["secrets002.yaml".toList, "secrets001.yaml".toList])
        (demoCollab .decryptLayers) ⟨"secrets003.yaml".toList, true, false, []⟩).result =
      .ret none (some (Errorf "cannot merge".toList)) :=
  ⟨(decrypt_fail_fast (sysWith []) (demoCollab .load)
      ⟨"secrets003.yaml".toList, true, false, []⟩).1 _ rfl,
    (decrypt_fail_fast (sysWith []) (demoCollab .decryptTree)
      ⟨"secrets003.yaml".toList, true, false, []⟩).2.1 _ _ rfl rfl,
    congrArg DecryptRun.result
      ((decrypt_fail_fast (sysWith ["secrets002.yaml".toList]) (demoCollab .nowhere)
        ⟨"secrets003.yaml".toList, true, false, []⟩).2.2.1 demoTree demoTree none _ rfl rfl rfl
          rfl),
    congrArg DecryptRun.result
      ((decrypt_fail_fast (sysWith ["secrets002.yaml".toList, "secrets001.yaml".toList])
        (demoCollab .decryptLayers) ⟨"secrets003.yaml".toList, true, false, []⟩).2.2.2.1
          demoTree demoTree (some ["secrets002.yaml".toList, "secrets001.yaml".toList]) _
          rfl rfl rfl rfl rfl)⟩

/-! ## The end of the pipeline -/

theorem extract_calls_output {β σ μ : Type} (c : Collab β σ μ) (tree : Tree β μ)
    (path : List PathElem) : ∀ x ∈ (extract c tree path).calls, x.isOutput = true := by
  unfold extract
  split
  · simp
  · split
    · simp [Call.isOutput]
    · dsimp only
      split <;> simp [Call.isOutput]
    · simp [Call.isOutput]
    · split <;> simp [Call.isOutput]

theorem decryptOutput_nonempty {β σ μ : Type} (c : Collab β σ μ) (opts : decryptOpts)
    (tree : Tree β μ) (calls : List (Call β σ μ)) (h : opts.Extract ≠ []) :
    decryptOutput c opts tree calls =
      ⟨(extract c tree opts.Extract).result, calls ++ (extract c tree opts.Extract).calls⟩ := by
  unfold decryptOutput
  have hlen : opts.Extract.length > 0 := List.length_pos.mpr h
  simp only [hlen, if_true]

theorem decryptOutput_empty {β σ μ : Type} (c : Collab β σ μ) (opts : decryptOpts)
    (tree : Tree β μ) (calls : List (Call β σ μ)) (h : opts.Extract = []) :
    decryptOutput c opts tree calls =
      ⟨match c.EmitPlainFile tree.Branches with
        | .ok decryptedFile => .ret (some decryptedFile) none
        | .error err => .ret none (some (NewExitError ("Error dumping file: ".toList ++ err.msg)
            c.ErrorDumpingTree)),
        calls ++ [.EmitPlainFile tree.Branches]⟩ := by
  unfold decryptOutput
  simp only [h, List.length_nil, gt_iff_lt, lt_self_iff_false, if_false]
  cases c.EmitPlainFile tree.Branches <;> rfl

theorem decryptOutput_calls {β σ μ : Type} (c : Collab β σ μ) (opts : decryptOpts)
    (tree : Tree β μ) (calls : List (Call β σ μ)) :
    ∃ rest, (decryptOutput c opts tree calls).calls = calls ++ rest ∧
      ∀ x ∈ rest, x.isOutput = true := by
  by_cases h : opts.Extract = []
  · rw [decryptOutput_empty c opts tree calls h]
    exact ⟨[.EmitPlainFile tree.Branches], rfl, by simp [Call.isOutput]⟩
  · rw [decryptOutput_nonempty c opts tree calls h]
    exact ⟨_, rfl, extract_calls_output c tree opts.Extract⟩

theorem decrypt_not_layered {β σ μ : Type} (sys : Sys) (c : Collab β σ μ) (opts : decryptOpts)
    (tree0 tree1 : Tree β μ)
    (hl : c.LoadEncryptedFileWithBugFixes opts.InputPath opts.IgnoreMAC = .ok tree0)
    (hd : c.DecryptTree opts.IgnoreMAC tree0 = .ok tree1) (hlay : opts.Layers = false) :
    decrypt sys c opts =
      decryptOutput c opts tree1 [.LoadEncryptedFileWithBugFixes opts.InputPath opts.IgnoreMAC,
        .DecryptTree opts.IgnoreMAC tree0] := by
  unfold decrypt
  simp only [hl, hd]
  unfold decryptLayered
  simp [hlay]

theorem decrypt_layered {β σ μ : Type} (sys : Sys) (c : Collab β σ μ) (opts : decryptOpts)
    (tree0 tree1 tree2 : Tree β μ) (chain : Option (List Str))
    (hl : c.LoadEncryptedFileWithBugFixes opts.InputPath opts.IgnoreMAC = .ok tree0)
    (hd : c.DecryptTree opts.IgnoreMAC tree0 = .ok tree1) (hlay : opts.Layers = true)
    (hres : (detectLayers sys opts.InputPath).result = .ret chain none)
    (hmerge : c.DecryptLayers tree1 (chain.getD []) = .ok tree2) :
    decrypt sys c opts =
      decryptOutput c opts tree2 ([.LoadEncryptedFileWithBugFixes opts.InputPath opts.IgnoreMAC,
        .DecryptTree opts.IgnoreMAC tree0] ++
        (detectLayers sys opts.InputPath).probes.map Call.Stat ++
        [.DecryptLayers tree1 (chain.getD [])]) := by
  unfold decrypt
  simp only [hl, hd]
  unfold decryptLayered
  simp only [hlay, if_true, hres, hmerge]

theorem decrypt_of_reachesOutput {β σ μ : Type} (sys : Sys) (c : Collab β σ μ)
    (opts : decryptOpts) (tree : Tree β μ) (pre : List (Call β σ μ))
    (h : ReachesOutput sys c opts tree pre) :
    decrypt sys c opts = decryptOutput c opts tree pre := by
  obtain ⟨tree0, tree1, hl, hd, hstage⟩ := h
  rcases hstage with ⟨hlay, ht, hpre⟩ | ⟨hlay, chain, hres, hmerge, hpre⟩
  · rw [ht, hpre]
    exact decrypt_not_layered sys c opts tree0 tree1 hl hd hlay
  · rw [hpre]
    exact decrypt_layered sys c opts tree0 tree1 tree chain hl hd hlay hres hmerge

/-- C11: after a successful load, decryption and, when requested, layer merge
(`ReachesOutput`, with the tree `tree` and the calls `pre` made so far): when
the extraction path is non-empty, `decrypt` returns exactly the result of
`extract` on that tree and path, and the calls that follow are those of
`extract` and no other; when the extraction path is empty, `decrypt` returns
what `EmitPlainFile` gives for all the branches of the tree (on its failure,
no output and the dumping error), and that is the only call that follows:
neither `Truncate` nor `EmitValue` is invoked. -/
theorem decrypt_output_dispatch {β σ μ : Type} (sys : Sys) (c : Collab β σ μ)
    (opts : decryptOpts) (tree : Tree β μ) (pre : List (Call β σ μ))
    (h : ReachesOutput sys c opts tree pre) :
    (opts.Extract ≠ [] →
      decrypt sys c opts =
        ⟨(extract c tree opts.Extract).result, pre ++ (extract c tree opts.Extract).calls⟩) ∧
    (opts.Extract = [] →
      decrypt sys c opts =
        ⟨match c.EmitPlainFile tree.Branches with
          | .ok decryptedFile => .ret (some decryptedFile) none
          | .error err => .ret none (some (NewExitError ("Error dumping file: ".toList ++ err.msg)
              c.ErrorDumpingTree)),
          pre ++ [.EmitPlainFile tree.Branches]⟩) := by
  rw [decrypt_of_reachesOutput sys c opts tree pre h]
  exact ⟨decryptOutput_nonempty c opts tree pre, decryptOutput_empty c opts tree pre⟩

/-- C11 on examples: with the path `["db", "password"]` the pipeline returns
the text `s3cr3t` after a `Truncate` and no emission; with an empty path it
returns the document of both branches after one `EmitPlainFile`. -/
theorem decrypt_output_dispatch_witness :
    decrypt (sysWith []) (demoCollab .nowhere)
        ⟨"secrets.yaml".toList, false, false, [.key "db".toList, .key "password".toList]⟩ =
      ⟨.ret (some "s3cr3t".toList) none,
        [.LoadEncryptedFileWithBugFixes "secrets.yaml".toList false, .DecryptTree false demoTree,
          .Truncate (demoTree.Branches.headD [])
            [.key "db".toList, .key "password".toList]]⟩ ∧
    decrypt (sysWith []) (demoCollab .nowhere) ⟨"secrets.yaml".toList, false, false, []⟩ =
      ⟨.ret (some "db:name:second:".toList) none,
        [.LoadEncryptedFileWithBugFixes "secrets.yaml".toList false, .DecryptTree false demoTree,
          .EmitPlainFile demoTree.Branches]⟩ :=
  ⟨(decrypt_output_dispatch (sysWith []) (demoCollab .nowhere)
      ⟨"secrets.yaml".toList, false, false, [.key "db".toList, .key "password".toList]⟩
      demoTree _ ⟨demoTree, demoTree, rfl, rfl, Or.inl ⟨rfl, rfl, rfl⟩⟩).1 (by decide),
    (decrypt_output_dispatch (sysWith []) (demoCollab .nowhere)
      ⟨"secrets.yaml".toList, false, false, []⟩
      demoTree _ ⟨demoTree, demoTree, rfl, rfl, Or.inl ⟨rfl, rfl, rfl⟩⟩).2 rfl⟩

/-! ## The class of the errors -/

theorem layerLoop_error_code (sys : Sys) (template : Str) :
    ∀ n layers probes chain e,
      (layerLoop sys template n layers probes).result = .ret chain (some e) →
      e.exitCode = none := by
  intro n
  induction n with
  | zero =>
    intro layers probes chain e h
    simp [layerLoop] at h
  | succ n ih =>
    intro layers probes chain e h
    unfold layerLoop at h
    dsimp only at h
    split at h
    · simp only [Result.ret.injEq, Option.some.injEq] at h
      rw [← h.2]
      rfl
    · exact ih _ _ _ _ h

theorem detectLayers_error_code (sys : Sys) (path : Str) (chain : Option (List Str))
    (e : Error) (h : (detectLayers sys path).result = .ret chain (some e)) :
    e.exitCode = none := by
  unfold detectLayers at h
  dsimp only at h
  split at h
  · simp only [Result.ret.injEq, Option.some.injEq] at h
    rw [← h.2]
    rfl
  · split at h
    · simp only [Result.ret.injEq, Option.some.injEq] at h
      rw [← h.2]
      rfl
    · split at h
      · exact layerLoop_error_code sys _ _ _ _ _ _ h
      · simp at h

/-- C12: every failure of an emitter of the output store is reported as the
dumping error.  When `EmitPlainFile` fails with `err` in the emission of the
whole document by `decrypt`, or in the extraction of a branch, or when
`EmitValue` fails with `err` in the extraction of another value, the result
is no output and an exit error whose code is `ErrorDumpingTree` and whose
message ends with the message of `err`.  And an error that `detectLayers`
returns (no trailing digits, digits that do not parse, a missing layer) and
the error of `extract` for a failed `Truncate` are no exit errors: they carry
no exit code, so not that one. -/
theorem emission_errors_dumping {β σ μ : Type} (sys : Sys) (c : Collab β σ μ) :
    (∀ opts tree pre err, ReachesOutput sys c opts tree pre → opts.Extract = [] →
      c.EmitPlainFile tree.Branches = .error err →
      ∃ e, (decrypt sys c opts).result = .ret none (some e) ∧
        e.exitCode = some c.ErrorDumpingTree ∧ err.msg <:+ e.msg) ∧
    (∀ (tree : Tree β μ) path b0 bs v err, tree.Branches = b0 :: bs →
      c.Truncate b0 path = .ok (.branch v) → c.EmitPlainFile (v :: bs) = .error err →
      ∃ e, (extract c tree path).result = .ret none (some e) ∧
        e.exitCode = some c.ErrorDumpingTree ∧ err.msg <:+ e.msg) ∧
    (∀ (tree : Tree β μ) path b0 bs o err, tree.Branches = b0 :: bs →
      c.Truncate b0 path = .ok (.other o) → c.EmitValue (.other o) = .error err →
      ∃ e, (extract c tree path).result = .ret none (some e) ∧
        e.exitCode = some c.ErrorDumpingTree ∧ err.msg <:+ e.msg) ∧
    (∀ path chain e, (detectLayers sys path).result = .ret chain (some e) →
      e.exitCode = none ∧ e.exitCode ≠ some c.ErrorDumpingTree) ∧
    (∀ (tree : Tree β μ) path b0 bs cause, tree.Branches = b0 :: bs →
      c.Truncate b0 path = .error cause →
      ∃ e, (extract c tree path).result = .ret none (some e) ∧
        e.exitCode = none ∧ e.exitCode ≠ some c.ErrorDumpingTree) := by
  refine ⟨?_, ?_, ?_, ?_, ?_⟩
  · intro opts tree pre err hreach hex hemit
    rw [decrypt_of_reachesOutput sys c opts tree pre hreach,
      decryptOutput_empty c opts tree pre hex, hemit]
    exact ⟨_, rfl, rfl, List.suffix_append _ _⟩
  · intro tree path b0 bs v err hb ht hemit
    unfold extract
    rw [hb]
    simp only [ht, hemit]
    exact ⟨_, rfl, rfl, List.suffix_append _ _⟩
  · intro tree path b0 bs o err hb ht hemit
    unfold extract
    rw [hb]
    simp only [ht, hemit]
    exact ⟨_, rfl, rfl, List.suffix_append _ _⟩
  · intro path chain e h
    have hnone := detectLayers_error_code sys path chain e h
    exact ⟨hnone, by rw [hnone]; exact fun hh => Option.noConfusion hh⟩
  · intro tree path b0 bs cause hb ht
    unfold extract
    rw [hb]
    simp only [ht]
    exact ⟨_, rfl, rfl, fun hh => Option.noConfusion hh⟩

/-- C12 on examples: a failing document emitter in `decrypt`, and a missing
layer, with the exit codes of the two errors. -/
theorem emission_errors_dumping_witness :
    (∃ e, (decrypt (sysWith []) (demoCollab .emitPlainFile)
        ⟨"secrets.yaml".toList, false, false, []⟩).result = .ret none (some e) ∧
      e.exitCode = some 4 ∧ "cannot emit".toList <:+ e.msg) ∧
    (missingLayerError (sysWith []) "secrets002.yaml".toList
        "no such file or directory".toList).exitCode = none :=
  ⟨(emission_errors_dumping (sysWith []) (demoCollab .emitPlainFile)).1
      ⟨"secrets.yaml".toList, false, false, []⟩ demoTree _ _
      ⟨demoTree, demoTree, rfl, rfl, Or.inl ⟨rfl, rfl, rfl⟩⟩ rfl rfl,
    ((emission_errors_dumping (sysWith []) (demoCollab .nowhere)).2.2.2.1
      "secrets003.yaml".toList none _ (by rfl)).1⟩

/-! ## The layer stage of the pipeline -/

theorem detectLayers_ret_chain (sys : Sys) (path : Str) (chain : List Str)
    (err : Option Error) (h : (detectLayers sys path).result = .ret (some chain) err) :
    chain = rendersFrom sys path (layerOf path - 1) := by
  rw [detectLayers_unfold] at h
  by_cases hraw : layerRawOf path = []
  · rw [if_pos hraw] at h
    simp at h
  · rw [if_neg hraw, ParseInt_layerRawOf path hraw] at h
    by_cases hle : layerOf path ≤ maxInt64
    · rw [if_pos hle] at h
      simp only at h
      by_cases hcap : makesliceOK (layerOf path : Int) = true
      · rw [if_pos hcap] at h
        have hc := layerLoop_ret_some sys path _ _ _ _ _ h
        have hn : ((layerOf path : Int) - 1).toNat = layerOf path - 1 := by omega
        rw [hn, List.nil_append] at hc
        exact hc
      · rw [if_neg hcap] at h
        simp at h
    · rw [if_neg hle] at h
      simp at h

theorem isOutput_not_merge {β σ μ : Type} (x : Call β σ μ) (h : x.isOutput = true) :
    x.isDecryptLayers = false ∧ x.isStat = false := by
  cases x <;> simp_all [Call.isOutput, Call.isDecryptLayers, Call.isStat]

theorem countP_merge_output {β σ μ : Type} (rest : List (Call β σ μ))
    (h : ∀ x ∈ rest, x.isOutput = true) : rest.countP Call.isDecryptLayers = 0 := by
  rw [List.countP_eq_zero]
  intro x hx
  rw [(isOutput_not_merge x (h x hx)).1]
  exact Bool.false_ne_true

theorem countP_merge_stat {β σ μ : Type} (probes : List Str) :
    (probes.map (Call.Stat : Str → Call β σ μ)).countP Call.isDecryptLayers = 0 := by
  rw [List.countP_eq_zero]
  intro x hx
  obtain ⟨p, _, hp⟩ := List.mem_map.mp hx
  rw [← hp]
  exact Bool.false_ne_true

theorem layerLoop_error_head (sys : Sys) (template : Str) :
    ∀ n layers probes chain e,
      (layerLoop sys template n layers probes).result = .ret chain (some e) →
      e.msg.head? = some 'm' := by
  intro n
  induction n with
  | zero =>
    intro layers probes chain e h
    simp [layerLoop] at h
  | succ n ih =>
    intro layers probes chain e h
    unfold layerLoop at h
    dsimp only at h
    split at h
    · simp only [Result.ret.injEq, Option.some.injEq] at h
      rw [← h.2]
      rfl
    · exact ih _ _ _ _ h

theorem detectLayers_error_head (sys : Sys) (path : Str) (chain : Option (List Str))
    (e : Error) (h : (detectLayers sys path).result = .ret chain (some e)) :
    e.msg.head? = some 'c' ∨ e.msg.head? = some 'm' := by
  unfold detectLayers at h
  dsimp only at h
  split at h
  · simp only [Result.ret.injEq, Option.some.injEq] at h
    rw [← h.2]
    exact Or.inl rfl
  · split at h
    · simp only [Result.ret.injEq, Option.some.injEq] at h
      rw [← h.2]
      exact Or.inl rfl
    · split at h
      · exact Or.inr (layerLoop_error_head sys _ _ _ _ _ _ h)
      · simp at h

theorem extract_error_form {β σ μ : Type} (c : Collab β σ μ) (tree : Tree β μ)
    (path : List PathElem) (out : Option Str) (e : Error)
    (h : (extract c tree path).result = .ret out (some e)) :
    e.exitCode = some c.ErrorDumpingTree ∨ e.msg.head? = some 'e' := by
  unfold extract at h
  split at h
  · simp at h
  · split at h
    · simp only [Result.ret.injEq, Option.some.injEq] at h
      rw [← h.2]
      exact Or.inr rfl
    · dsimp only at h
      split at h
      · simp only [Result.ret.injEq, Option.some.injEq] at h
        rw [← h.2]
        exact Or.inl rfl
      · simp at h
    · simp at h
    · split at h
      · simp only [Result.ret.injEq, Option.some.injEq] at h
        rw [← h.2]
        exact Or.inl rfl
      · simp at h

/-- C13: after a successful load and decryption of the tree.  When the layered
flag is set and `detectLayers` returns the chain `layers` without error, that
chain is the template rendered with `N - 1` down to `1`, and the calls of
`decrypt` are the loader, `DecryptTree`, the existence checks of
`detectLayers`, then `DecryptLayers` with exactly `layers`, then only calls
of extraction or emission: the merge is invoked exactly once; when the merge
fails its error is returned, and when it returns a tree the run is the
extraction or emission on that tree.  When the flag is not set, the run of
`decrypt` is the extraction or emission on the decrypted tree right after the
loader and `DecryptTree`, whatever the input path is: the error that
`detectLayers` gives for a path without trailing digits is not returned, a
successful emission is returned without error, there is no existence check
and no merge among the calls, and the run does not depend on the system that
`detectLayers` would use. -/
theorem decrypt_layer_stage {β σ μ : Type} (sys : Sys) (c : Collab β σ μ) (opts : decryptOpts)
    (tree0 tree1 : Tree β μ)
    (hl : c.LoadEncryptedFileWithBugFixes opts.InputPath opts.IgnoreMAC = .ok tree0)
    (hd : c.DecryptTree opts.IgnoreMAC tree0 = .ok tree1) :
    (opts.Layers = true → ∀ layers,
      (detectLayers sys opts.InputPath).result = .ret (some layers) none →
      layers = rendersFrom sys opts.InputPath (layerOf opts.InputPath - 1) ∧
      (∃ rest, (decrypt sys c opts).calls =
          [.LoadEncryptedFileWithBugFixes opts.InputPath opts.IgnoreMAC,
            .DecryptTree opts.IgnoreMAC tree0] ++
          (detectLayers sys opts.InputPath).probes.map Call.Stat ++
          [.DecryptLayers tree1 layers] ++ rest ∧
        ∀ x ∈ rest, x.isOutput = true) ∧
      (decrypt sys c opts).calls.countP Call.isDecryptLayers = 1 ∧
      (∀ e, c.DecryptLayers tree1 layers = .error e →
        decrypt sys c opts =
          ⟨.ret none (some e),
            [.LoadEncryptedFileWithBugFixes opts.InputPath opts.IgnoreMAC,
              .DecryptTree opts.IgnoreMAC tree0] ++
            (detectLayers sys opts.InputPath).probes.map Call.Stat ++
            [.DecryptLayers tree1 layers]⟩) ∧
      (∀ tree2, c.DecryptLayers tree1 layers = .ok tree2 →
        (opts.Extract ≠ [] →
          decrypt sys c opts =
            ⟨(extract c tree2 opts.Extract).result,
              [.LoadEncryptedFileWithBugFixes opts.InputPath opts.IgnoreMAC,
                .DecryptTree opts.IgnoreMAC tree0] ++
              (detectLayers sys opts.InputPath).probes.map Call.Stat ++
              [.DecryptLayers tree1 layers] ++ (extract c tree2 opts.Extract).calls⟩) ∧
        (opts.Extract = [] →
          decrypt sys c opts =
            ⟨match c.EmitPlainFile tree2.Branches with
              | .ok decryptedFile => .ret (some decryptedFile) none
              | .error err => .ret none (some (NewExitError
                  ("Error dumping file: ".toList ++ err.msg) c.ErrorDumpingTree)),
              [.LoadEncryptedFileWithBugFixes opts.InputPath opts.IgnoreMAC,
                .DecryptTree opts.IgnoreMAC tree0] ++
              (detectLayers sys opts.InputPath).probes.map Call.Stat ++
              [.DecryptLayers tree1 layers] ++ [.EmitPlainFile tree2.Branches]⟩))) ∧
    (opts.Layers = false →
      (∃ rest, (decrypt sys c opts).calls =
          [.LoadEncryptedFileWithBugFixes opts.InputPath opts.IgnoreMAC,
            .DecryptTree opts.IgnoreMAC tree0] ++ rest ∧
        ∀ x ∈ rest, x.isOutput = true) ∧
      (∀ x ∈ (decrypt sys c opts).calls, x.isStat = false ∧ x.isDecryptLayers = false) ∧
      (∀ sys1, decrypt sys1 c opts = decrypt sys c opts) ∧
      (opts.Extract ≠ [] →
        decrypt sys c opts =
          ⟨(extract c tree1 opts.Extract).result,
            [.LoadEncryptedFileWithBugFixes opts.InputPath opts.IgnoreMAC,
              .DecryptTree opts.IgnoreMAC tree0] ++ (extract c tree1 opts.Extract).calls⟩) ∧
      (opts.Extract = [] →
        decrypt sys c opts =
          ⟨match c.EmitPlainFile tree1.Branches with
            | .ok decryptedFile => .ret (some decryptedFile) none
            | .error err => .ret none (some (NewExitError
                ("Error dumping file: ".toList ++ err.msg) c.ErrorDumpingTree)),
            [.LoadEncryptedFileWithBugFixes opts.InputPath opts.IgnoreMAC,
              .DecryptTree opts.IgnoreMAC tree0] ++ [.EmitPlainFile tree1.Branches]⟩) ∧
      (∀ out, opts.Extract = [] → c.EmitPlainFile tree1.Branches = .ok out →
        (decrypt sys c opts).result = .ret (some out) none) ∧
      (∀ chain e, (detectLayers sys opts.InputPath).result = .ret chain (some e) →
        (decrypt sys c opts).result ≠ .ret none (some e))) := by
  constructor
  · intro hlay layers hres
    have hpre : ∀ tree2, c.DecryptLayers tree1 layers = .ok tree2 →
        decrypt sys c opts =
          decryptOutput c opts tree2
            ([.LoadEncryptedFileWithBugFixes opts.InputPath opts.IgnoreMAC,
              .DecryptTree opts.IgnoreMAC tree0] ++
            (detectLayers sys opts.InputPath).probes.map Call.Stat ++
            [.DecryptLayers tree1 layers]) := fun tree2 hmerge =>
      decrypt_layered sys c opts tree0 tree1 tree2 (some layers) hl hd hlay hres hmerge
    have hfail : ∀ e, c.DecryptLayers tree1 layers = .error e →
        decrypt sys c opts =
          ⟨.ret none (some e),
            [.LoadEncryptedFileWithBugFixes opts.InputPath opts.IgnoreMAC,
              .DecryptTree opts.IgnoreMAC tree0] ++
            (detectLayers sys opts.InputPath).probes.map Call.Stat ++
            [.DecryptLayers tree1 layers]⟩ := by
      intro e hmerge
      unfold decrypt
      simp only [hl, hd]
      unfold decryptLayered
      simp only [hlay, if_true, hres, Option.getD_some, hmerge]
    have hshape : ∃ rest, (decrypt sys c opts).calls =
        [.LoadEncryptedFileWithBugFixes opts.InputPath opts.IgnoreMAC,
          .DecryptTree opts.IgnoreMAC tree0] ++
        (detectLayers sys opts.InputPath).probes.map Call.Stat ++
        [.DecryptLayers tree1 layers] ++ rest ∧ ∀ x ∈ rest, x.isOutput = true := by
      cases hmerge : c.DecryptLayers tree1 layers with
      | error e =>
        refine ⟨[], ?_, by simp⟩
        rw [hfail e hmerge, List.append_nil]
      | ok tree2 =>
        rw [hpre tree2 hmerge]
        exact decryptOutput_calls c opts tree2 _
    refine ⟨detectLayers_ret_chain sys _ layers none hres, hshape, ?_, hfail, ?_⟩
    · obtain ⟨rest, hcalls, hrest⟩ := hshape
      rw [hcalls]
      simp only [List.countP_append, countP_merge_stat, countP_merge_output rest hrest]
      simp [Call.isDecryptLayers, List.countP_cons]
    · intro tree2 hmerge
      rw [hpre tree2 hmerge]
      exact ⟨decryptOutput_nonempty c opts tree2 _, decryptOutput_empty c opts tree2 _⟩
  · intro hlay
    have hdec := decrypt_not_layered sys c opts tree0 tree1 hl hd hlay
    have hshape := decryptOutput_calls c opts tree1
      [.LoadEncryptedFileWithBugFixes opts.InputPath opts.IgnoreMAC,
        .DecryptTree opts.IgnoreMAC tree0]
    have hempty := decryptOutput_empty c opts tree1
      [.LoadEncryptedFileWithBugFixes opts.InputPath opts.IgnoreMAC,
        .DecryptTree opts.IgnoreMAC tree0]
    refine ⟨by rw [hdec]; exact hshape, ?_, ?_, ?_, ?_, ?_, ?_⟩
    · rw [hdec]
      obtain ⟨rest, hcalls, hrest⟩ := hshape
      rw [hcalls]
      intro x hx
      rcases List.mem_append.mp hx with hx | hx
      · simp only [List.mem_cons, List.mem_singleton, List.not_mem_nil, or_false] at hx
        rcases hx with hx | hx <;> rw [hx] <;> exact ⟨rfl, rfl⟩
      · exact ⟨(isOutput_not_merge x (hrest x hx)).2, (isOutput_not_merge x (hrest x hx)).1⟩
    · intro sys1
      rw [hdec, decrypt_not_layered sys1 c opts tree0 tree1 hl hd hlay]
    · intro hne
      rw [hdec]
      exact decryptOutput_nonempty c opts tree1 _ hne
    · intro hex
      rw [hdec]
      exact hempty hex
    · intro out hex hemit
      rw [hdec, hempty hex, hemit]
    · intro chain e hres hEq
      have hcode := detectLayers_error_code sys opts.InputPath chain e hres
      rw [hdec] at hEq
      by_cases hex : opts.Extract = []
      · rw [hempty hex] at hEq
        cases hemit : c.EmitPlainFile tree1.Branches with
        | ok out =>
          rw [hemit] at hEq
          simp at hEq
        | error err =>
          rw [hemit] at hEq
          simp only [Result.ret.injEq, Option.some.injEq, true_and] at hEq
          rw [← hEq] at hcode
          exact Option.noConfusion hcode
      · rw [decryptOutput_nonempty c opts tree1 _ hex] at hEq
        rcases extract_error_form c tree1 opts.Extract none e hEq with hx | hx
        · rw [hcode] at hx
          exact Option.noConfusion hx
        · rcases detectLayers_error_head sys opts.InputPath chain e hres with hh | hh
          · rw [hh] at hx
            exact absurd hx (by decide)
          · rw [hh] at hx
            exact absurd hx (by decide)

/-- C13 on examples: with the flag set on `secrets003.yaml`, the merge gets the
chain of layers 2 and 1 after the two existence checks and before the
emission, once; without the flag, the path `secrets.yaml`, for which
`detectLayers` returns the error of a path without trailing digits, gives the
document and no error. -/
theorem decrypt_layer_stage_witness :
    decrypt (sysWith ["secrets002.yaml".toList, "secrets001.yaml".toList])
        (demoCollab .nowhere) ⟨"secrets003.yaml".toList, true, false, []⟩ =
      ⟨.ret (some "db:name:second:".toList) none,
        [.LoadEncryptedFileWithBugFixes "secrets003.yaml".toList false,
          .DecryptTree false demoTree, .Stat "secrets002.yaml".toList,
          .Stat "secrets001.yaml".toList,
          .DecryptLayers demoTree ["secrets002.yaml".toList, "secrets001.yaml".toList],
          .EmitPlainFile demoTree.Branches]⟩ ∧
    (decrypt (sysWith ["secrets002.yaml".toList, "secrets001.yaml".toList])
        (demoCollab .nowhere) ⟨"secrets003.yaml".toList, true, false, []⟩).calls.countP
      Call.isDecryptLayers = 1 ∧
    (detectLayers (sysWith []) "secrets.yaml".toList).result =
      .ret none (some (Errorf "could not extract layer from secrets.yaml".toList)) ∧
    (decrypt (sysWith []) (demoCollab .nowhere)
        ⟨"secrets.yaml".toList, false, false, []⟩).result =
      .ret (some "db:name:second:".toList) none ∧
    (decrypt (sysWith []) (demoCollab .nowhere)
        ⟨"secrets.yaml".toList, false, false, []⟩).result ≠
      .ret none (some (Errorf "could not extract layer from secrets.yaml".toList)) :=
  ⟨(((decrypt_layer_stage (sysWith ["secrets002.yaml".toList, "secrets001.yaml".toList])
      (demoCollab .nowhere) ⟨"secrets003.yaml".toList, true, false, []⟩ demoTree demoTree
      rfl rfl).1 rfl ["secrets002.yaml".toList, "secrets001.yaml".toList]
      (by rfl)).2.2.2.2 demoTree rfl).2 rfl,
    ((decrypt_layer_stage (sysWith ["secrets002.yaml".toList, "secrets001.yaml".toList])
      (demoCollab .nowhere) ⟨"secrets003.yaml".toList, true, false, []⟩ demoTree demoTree
      rfl rfl).1 rfl ["secrets002.yaml".toList, "secrets001.yaml".toList] (by rfl)).2.2.1,
    by rfl,
    ((decrypt_layer_stage (sysWith []) (demoCollab .nowhere)
      ⟨"secrets.yaml".toList, false, false, []⟩ demoTree demoTree rfl rfl).2 rfl).2.2.2.2.2.1
      _ rfl rfl,
    ((decrypt_layer_stage (sysWith []) (demoCollab .nowhere)
      ⟨"secrets.yaml".toList, false, false, []⟩ demoTree demoTree rfl rfl).2 rfl).2.2.2.2.2.2
      none _ (by rfl)⟩

/-! ## The frame of `extract` -/

/-- C18: on a tree with a first branch `b0` and later branches `bs`.  When
`Truncate` returns a branch `v`, the tree after `extract` has the branches
`v :: bs` (as many branches, the later ones as they were) and its metadata,
whatever `EmitPlainFile` returns then; when `Truncate` returns a string or a
value of another type, or fails, the tree after `extract` is the tree
before. -/
theorem extract_frame {β σ μ : Type} (c : Collab β σ μ) (tree : Tree β μ)
    (path : List PathElem) (b0 : β) (bs : List β) (hb : tree.Branches = b0 :: bs) :
    (∀ v, c.Truncate b0 path = .ok (.branch v) →
      (extract c tree path).tree = { tree with Branches := v :: bs } ∧
      (extract c tree path).tree.Branches.length = tree.Branches.length ∧
      (extract c tree path).tree.Branches.tail = tree.Branches.tail) ∧
    (∀ s, c.Truncate b0 path = .ok (.str s) → (extract c tree path).tree = tree) ∧
    (∀ o, c.Truncate b0 path = .ok (.other o) → (extract c tree path).tree = tree) ∧
    (∀ cause, c.Truncate b0 path = .error cause → (extract c tree path).tree = tree) := by
  refine ⟨?_, ?_, ?_, ?_⟩
  · intro v ht
    have h : (extract c tree path).tree = { tree with Branches := v :: bs } := by
      unfold extract
      rw [hb]
      simp only [ht]
      cases c.EmitPlainFile (v :: bs) <;> rfl
    rw [h, hb]
    exact ⟨rfl, rfl, rfl⟩
  · intro s ht
    unfold extract
    rw [hb]
    simp only [ht]
  · intro o ht
    unfold extract
    rw [hb]
    simp only [ht]
    cases c.EmitValue (.other o) <;> rfl
  · intro cause ht
    unfold extract
    rw [hb]
    simp only [ht]

/-- C18 on examples: the extraction of the branch `db` replaces the first
branch and keeps the second, also when the emission fails; the extraction of
a text leaves the tree as it is. -/
theorem extract_frame_witness :
    (extract (demoCollab .emitPlainFile) demoTree [.key "db".toList]).tree.Branches.tail =
      demoTree.Branches.tail ∧
    (extract (demoCollab .nowhere) demoTree
      [.key "db".toList, .key "password".toList]).tree = demoTree :=
  ⟨((extract_frame (demoCollab .emitPlainFile) demoTree [.key "db".toList] _ _ rfl).1 _
      rfl).2.2,
    (extract_frame (demoCollab .nowhere) demoTree [.key "db".toList, .key "password".toList]
      _ _ rfl).2.1 _ rfl⟩

/-! ## The parse of the layer number -/

theorem layerLoop_error_probes (sys : Sys) (template : Str) :
    ∀ n layers probes e,
      (layerLoop sys template n layers probes).result = .ret none (some e) →
      (layerLoop sys template n layers probes).probes ≠ [] := by
  intro n
  induction n with
  | zero =>
    intro layers probes e h
    simp [layerLoop] at h
  | succ n ih =>
    intro layers probes e h
    unfold layerLoop at h ⊢
    dsimp only at h ⊢
    split
    · simp
    · rename_i hs
      rw [hs] at h
      exact ih _ _ _ h

theorem layerRawOf_infix_parse_error (sys : Sys) (path : Str) (e : NumError) :
    layerRawOf path <:+:
      (Errorf ("could not parse layer ".toList ++ layerRawOf path ++ ": ".toList ++
        parseErrorText sys (layerRawOf path) e)).msg :=
  ⟨"could not parse layer ".toList,
    ": ".toList ++ parseErrorText sys (layerRawOf path) e, by simp [Errorf]⟩

/-- C14: for a path whose base ends in the digits `D`.  `detectLayers` returns
the parse error (a nil chain and `could not parse layer D: ...`, after no
existence check) if and only if the decimal value of `D` exceeds `2^63 - 1`;
then the error is the range error and its message contains `D`.  When the
value is at most `2^63 - 1`, whatever the number of leading zeros, the parse
`strconv.ParseInt(D, 10, 64)` succeeds with exactly the decimal value. -/
theorem detectLayers_parse_error (sys : Sys) (path : Str) (hraw : layerRawOf path ≠ []) :
    ((∃ e, detectLayers sys path =
        ⟨.ret none (some (Errorf ("could not parse layer ".toList ++ layerRawOf path ++
          ": ".toList ++ parseErrorText sys (layerRawOf path) e))), []⟩) ↔
      maxInt64 < layerOf path) ∧
    (maxInt64 < layerOf path →
      detectLayers sys path =
        ⟨.ret none (some (Errorf ("could not parse layer ".toList ++ layerRawOf path ++
          ": ".toList ++ parseErrorText sys (layerRawOf path) .ErrRange))), []⟩ ∧
      layerRawOf path <:+:
        (Errorf ("could not parse layer ".toList ++ layerRawOf path ++ ": ".toList ++
          parseErrorText sys (layerRawOf path) .ErrRange)).msg) ∧
    (layerOf path ≤ maxInt64 → ParseInt (layerRawOf path) = .ok (layerOf path : Int)) := by
  have hbig : maxInt64 < layerOf path →
      detectLayers sys path =
        ⟨.ret none (some (Errorf ("could not parse layer ".toList ++ layerRawOf path ++
          ": ".toList ++ parseErrorText sys (layerRawOf path) .ErrRange))), []⟩ := by
    intro hlt
    rw [detectLayers_unfold, if_neg hraw, ParseInt_layerRawOf path hraw,
      if_neg (Nat.not_le.mpr hlt)]
  refine ⟨⟨?_, fun hlt => ⟨_, hbig hlt⟩⟩,
    fun hlt => ⟨hbig hlt, layerRawOf_infix_parse_error sys path _⟩, ?_⟩
  · rintro ⟨e, he⟩
    by_contra hle
    have hle : layerOf path ≤ maxInt64 := Nat.not_lt.mp hle
    rw [detectLayers_of_layer sys path hraw hle] at he
    by_cases hcap : makesliceOK (layerOf path : Int) = true
    · rw [if_pos hcap] at he
      have hres := congrArg LayerRun.result he
      have hprobes := congrArg LayerRun.probes he
      exact layerLoop_error_probes sys _ _ _ _ _ hres hprobes
    · rw [if_neg hcap] at he
      have hres := congrArg LayerRun.result he
      simp at hres
  · intro hle
    rw [ParseInt_layerRawOf path hraw, if_pos hle]

/-- C14 on examples: `2^63` does not parse, and the digits
`0000000000000000000000007` parse to 7. -/
theorem detectLayers_parse_error_witness :
    detectLayers (sysWith []) "s9223372036854775808.yaml".toList =
      ⟨.ret none (some (Errorf ("could not parse layer 9223372036854775808: ".toList ++
        "strconv.ParseInt: parsing ".toList ++ quotePlain "9223372036854775808".toList ++
        ": value out of range".toList))), []⟩ ∧
    ParseInt (layerRawOf "s0000000000000000000000007.yaml".toList) = .ok 7 :=
  ⟨((detectLayers_parse_error (sysWith []) "s9223372036854775808.yaml".toList
      (by decide)).2.1 (by decide)).1,
    (detectLayers_parse_error (sysWith []) "s0000000000000000000000007.yaml".toList
      (by decide)).2.2 (by decide)⟩

/-! ## Panics of `detectLayers` -/

theorem extScan_suffix : ∀ rev acc : List Char, extScan rev acc <:+ rev.reverse ++ acc := by
  intro rev
  induction rev with
  | nil => intro acc; exact List.nil_suffix
  | cons c rev ih =>
    intro acc
    unfold extScan
    split
    · exact List.nil_suffix
    · split
      · rw [List.reverse_cons, List.append_assoc]
        exact List.suffix_append _ _
      · rw [List.reverse_cons, List.append_assoc]
        exact ih (c :: acc)

theorem Ext_suffix (path : Str) : Ext path <:+ path := by
  have h := extScan_suffix path.reverse []
  rwa [List.reverse_reverse, List.append_nil] at h

theorem Ext_length_le (path : Str) : (Ext path).length ≤ path.length :=
  (Ext_suffix path).length_le

theorem baseOf_append_Ext (path : Str) : baseOf path ++ Ext path = path := by
  obtain ⟨t, ht⟩ := Ext_suffix path
  have hlen : path.length = t.length + (Ext path).length := by
    rw [← List.length_append]
    exact (congrArg List.length ht).symm
  have hsub : path.length - (Ext path).length = t.length := by omega
  have htake : (t ++ Ext path).take t.length = t := List.take_left' rfl
  rw [ht] at htake
  unfold baseOf
  rw [hsub, htake]
  exact ht

theorem layerLoop_no_panic (sys : Sys) (template : Str) :
    ∀ n layers probes msg, (layerLoop sys template n layers probes).result ≠ .panic msg := by
  intro n
  induction n with
  | zero => intro layers probes msg; simp [layerLoop]
  | succ n ih =>
    intro layers probes msg
    unfold layerLoop
    dsimp only
    split
    · simp
    · exact ih _ _ _

theorem detectLayers_panic_iff (sys : Sys) (path : Str) :
    (∃ msg, (detectLayers sys path).result = .panic msg) ↔
      layerRawOf path ≠ [] ∧ layerOf path ≤ maxInt64 ∧ maxAlloc < stringSize * layerOf path := by
  rw [detectLayers_unfold]
  by_cases hraw : layerRawOf path = []
  · rw [if_pos hraw]
    simp [hraw]
  · rw [if_neg hraw, ParseInt_layerRawOf path hraw]
    by_cases hle : layerOf path ≤ maxInt64
    · rw [if_pos hle]
      simp only
      by_cases hcap : makesliceOK (layerOf path : Int) = true
      · rw [if_pos hcap]
        have hc := (makesliceOK_iff _).mp hcap
        constructor
        · rintro ⟨msg, hm⟩
          exact absurd hm (layerLoop_no_panic sys _ _ _ _ msg)
        · rintro ⟨_, _, hlt⟩
          omega
      · rw [if_neg hcap]
        have hc : ¬ stringSize * layerOf path ≤ maxAlloc := fun h =>
          hcap ((makesliceOK_iff _).mpr h)
        exact ⟨fun _ => ⟨hraw, hle, Nat.lt_of_not_le hc⟩, fun _ => ⟨_, rfl⟩⟩
    · rw [if_neg hle]
      simp [hle]

/-- C15, evaluated where it fails: for the path
`layer2305843009213693952.yaml` the digits parse to `N = 2^61` and no file is
present, so the claim has `detectLayers` probe the template rendered with
`N - 1` and stop there with the error of the missing layer; the code ends in
the panic of `make([]string, 0, layer)` and probes nothing. -/
theorem detectLayers_huge_layer_no_probe :
    ParseInt (layerRawOf "layer2305843009213693952.yaml".toList) = .ok (2 ^ 61) ∧
    (rendersFrom (sysWith []) "layer2305843009213693952.yaml".toList (2 ^ 61 - 1)).head? =
      some (render (sysWith []) "layer2305843009213693952.yaml".toList (2 ^ 61 - 1)) ∧
    (sysWith []).Stat (render (sysWith []) "layer2305843009213693952.yaml".toList
      (2 ^ 61 - 1)) ≠ none ∧
    (detectLayers (sysWith []) "layer2305843009213693952.yaml".toList).probes = [] ∧
    (detectLayers (sysWith []) "layer2305843009213693952.yaml".toList).result =
      .panic "runtime error: makeslice: cap out of range".toList := by
  refine ⟨by rfl, ?_, by simp [sysWith], by rfl, by rfl⟩
  have h : (2 ^ 61 - 1 : Nat) = (2 ^ 61 - 2) + 1 := by norm_num
  rw [h]
  rfl

/-- C17, evaluated where it fails: for the path
`app1152921504606846976.json` the base `path[:len(path)-len(ext)]` is within
bounds and the digits parse to `N = 2^60`, which `strconv.ParseInt` accepts;
the capacity check of `make([]string, 0, layer)` fails, since 16 bytes times
`2^60` exceed the largest allocation, and `detectLayers` ends in a run-time
panic whatever the system, with neither a chain nor an error. -/
theorem detectLayers_not_total :
    baseOf "app1152921504606846976.json".toList ++ Ext "app1152921504606846976.json".toList =
      "app1152921504606846976.json".toList ∧
    ParseInt (layerRawOf "app1152921504606846976.json".toList) = .ok (2 ^ 60) ∧
    (2 : Int) ^ 60 ≤ 2 ^ 63 - 1 ∧
    makesliceOK (2 ^ 60) = false ∧
    ∀ sys, detectLayers sys "app1152921504606846976.json".toList =
      ⟨.panic "runtime error: makeslice: cap out of range".toList, []⟩ := by
  refine ⟨by rfl, by rfl, by norm_num, by decide, ?_⟩
  intro sys
  rfl

/-! ## The soundness of the template -/

theorem replaceGo_skip (old new : Str) : ∀ (s : Str) (k : Nat), s.length ≤ k →
    replaceGo old new s k = [] := by
  intro s
  induction s with
  | nil => intro k _; cases k <;> rfl
  | cons c s ih =>
    intro k hk
    cases k with
    | zero => simp at hk
    | succ k =>
      simp only [replaceGo]
      exact ih k (by simpa using hk)

theorem replaceGo_unique_suffix (X new : Str) (hX : X ≠ []) :
    ∀ P : Str, (∀ A B, P ++ X = A ++ X ++ B → B = []) →
      replaceGo X new (P ++ X) 0 = P ++ new := by
  intro P
  induction P with
  | nil =>
    intro _
    cases X with
    | nil => exact absurd rfl hX
    | cons c s =>
      have hpre : (c :: s).isPrefixOf (c :: s) = true :=
        List.isPrefixOf_iff_prefix.mpr (List.prefix_refl _)
      simp only [List.nil_append, replaceGo, hpre, if_true]
      rw [replaceGo_skip _ _ s _ (by simp)]
      simp
  | cons p P ih =>
    intro huniq
    have hnot : X.isPrefixOf (p :: (P ++ X)) = false := by
      rw [Bool.eq_false_iff]
      intro hpre
      obtain ⟨B, hB⟩ := List.isPrefixOf_iff_prefix.mp hpre
      have hnil := huniq [] B (by simpa using hB.symm)
      subst hnil
      have hlen := congrArg List.length hB
      simp at hlen
      omega
    have ih' := ih (fun A B h => huniq (p :: A) B (by simp [h]))
    rw [List.cons_append]
    unfold replaceGo
    rw [hnot, ih']
    simp

theorem ReplaceAll_unique_suffix (P X new : Str) (hX : X ≠ [])
    (huniq : ∀ A B, P ++ X = A ++ X ++ B → B = []) :
    ReplaceAll (P ++ X) X new = P ++ new := by
  unfold ReplaceAll
  have : X.isEmpty = false := by
    cases X with
    | nil => exact absurd rfl hX
    | cons _ _ => rfl
  simp only [this]
  exact replaceGo_unique_suffix X new hX P huniq



theorem digitChar_digit (m : Nat) (h : m < 10) :
    isDigit (Nat.digitChar m) = true ∧ digitVal (Nat.digitChar m) = m ∧
      (m ≠ 0 → Nat.digitChar m ≠ '0') := by
  interval_cases m <;> refine ⟨by decide, by decide, by decide⟩

theorem decimalValue_append_singleton (hs : Str) (d : Char) :
    decimalValue (hs ++ [d]) = 10 * decimalValue hs + digitVal d := by
  simp [decimalValue, List.foldl_append]

theorem toDigitsCore_spec : ∀ (fuel n : Nat) (ds : List Char), n < fuel →
    ∃ hs, Nat.toDigitsCore 10 fuel n ds = hs ++ ds ∧ hs ≠ [] ∧
      (∀ c ∈ hs, isDigit c = true) ∧ decimalValue hs = n ∧
      (n ≠ 0 → hs.head? ≠ some '0') ∧
      (∀ k, 0 < k → n < 10 ^ k → hs.length ≤ k) := by
  intro fuel
  induction fuel with
  | zero => intro n ds h; omega
  | succ fuel ih =>
    intro n ds h
    have hd := digitChar_digit (n % 10) (Nat.mod_lt _ (by norm_num))
    unfold Nat.toDigitsCore
    dsimp only
    by_cases h0 : n / 10 = 0
    · rw [if_pos h0]
      have hn : n % 10 = n := by omega
      refine ⟨[Nat.digitChar (n % 10)], rfl, by simp, ?_, ?_, ?_, ?_⟩
      · intro c hc
        rw [List.mem_singleton.mp hc]
        exact hd.1
      · have h1 : decimalValue [Nat.digitChar (n % 10)] = digitVal (Nat.digitChar (n % 10)) := by
          simp [decimalValue]
        rw [h1, hd.2.1, hn]
      · intro hne
        simp only [List.head?_cons, ne_eq, Option.some.injEq]
        exact hd.2.2 (by omega)
      · intro k hk _
        simpa using hk
    · rw [if_neg h0]
      obtain ⟨hs, heq, hne, hdig, hval, hhead, hlen⟩ :=
        ih (n / 10) (Nat.digitChar (n % 10) :: ds) (by omega)
      refine ⟨hs ++ [Nat.digitChar (n % 10)], by rw [heq]; simp, by simp, ?_, ?_, ?_, ?_⟩
      · intro c hc
        rcases List.mem_append.mp hc with hc | hc
        · exact hdig c hc
        · rw [List.mem_singleton.mp hc]
          exact hd.1
      · rw [decimalValue_append_singleton, hval, hd.2.1]
        omega
      · intro _
        cases hs with
        | nil => exact absurd rfl hne
        | cons a l => exact hhead h0
      · intro k hk hlt
        cases k with
        | zero => omega
        | succ k =>
          have hk0 : 0 < k := by
            by_contra hk0
            have : k = 0 := by omega
            subst this
            simp at hlt
            omega
          have : n / 10 < 10 ^ k := by
            rw [Nat.div_lt_iff_lt_mul (by norm_num)]
            rw [pow_succ] at hlt
            exact hlt
          have := hlen k hk0 this
          simp
          omega

theorem decimal_spec (n : Nat) :
    decimal n ≠ [] ∧ (∀ c ∈ decimal n, isDigit c = true) ∧ decimalValue (decimal n) = n ∧
      (n ≠ 0 → (decimal n).head? ≠ some '0') ∧
      (∀ k, 0 < k → n < 10 ^ k → (decimal n).length ≤ k) := by
  obtain ⟨hs, heq, hne, hdig, hval, hhead, hlen⟩ := toDigitsCore_spec (n + 1) n [] (by omega)
  have : decimal n = hs := by
    unfold decimal Nat.toDigits
    rw [heq, List.append_nil]
  rw [this]
  exact ⟨hne, hdig, hval, hhead, hlen⟩



theorem isDigit_digitVal_le (c : Char) (h : isDigit c = true) : digitVal c ≤ 9 := by
  unfold isDigit at h
  simp only [Bool.and_eq_true, decide_eq_true_eq] at h
  have h2 : c.val ≤ '9'.val := h.2
  have h3 : c.val.toNat ≤ ('9' : Char).val.toNat := h2
  unfold digitVal Char.toNat
  have h4 : ('9' : Char).val.toNat = 57 := by decide
  have h5 : ('0' : Char).val.toNat = 48 := by decide
  omega

theorem valueFrom_ge (ds : Str) : ∀ acc, acc ≤ valueFrom acc ds := by
  induction ds with
  | nil => intro acc; exact le_refl _
  | cons c ds ih =>
    intro acc
    have := ih (10 * acc + digitVal c)
    simp only [valueFrom, List.foldl_cons] at this ⊢
    omega

theorem valueFrom_lt (ds : Str) (hd : ∀ c ∈ ds, isDigit c = true) :
    ∀ acc, valueFrom acc ds < (acc + 1) * 10 ^ ds.length := by
  induction ds with
  | nil => intro acc; simp [valueFrom]
  | cons c ds ih =>
    intro acc
    have hc := isDigit_digitVal_le c (hd c (List.mem_cons_self _ _))
    have := ih (fun x hx => hd x (List.mem_cons_of_mem _ hx)) (10 * acc + digitVal c)
    simp only [valueFrom, List.foldl_cons, List.length_cons, pow_succ] at this ⊢
    calc List.foldl (fun n c => 10 * n + digitVal c) (10 * acc + digitVal c) ds
        < (10 * acc + digitVal c + 1) * 10 ^ ds.length := this
      _ ≤ ((acc + 1) * 10) * 10 ^ ds.length := Nat.mul_le_mul_right _ (by omega)
      _ = (acc + 1) * (10 ^ ds.length * 10) := by ring

theorem decimalValue_lt (ds : Str) (hd : ∀ c ∈ ds, isDigit c = true) :
    decimalValue ds < 10 ^ ds.length := by
  have := valueFrom_lt ds hd 0
  simpa [valueFrom, decimalValue] using this

theorem parsenum_digits (rest : Str) (hrest : ∀ c, rest.head? = some c → isDigit c = false) :
    ∀ (ds : Str) (acc : Nat), (∀ c ∈ ds, isDigit c = true) → valueFrom acc ds ≤ 10000009 →
      parsenum (ds ++ rest) acc = some (valueFrom acc ds, rest) := by
  intro ds
  induction ds with
  | nil =>
    intro acc _ _
    cases rest with
    | nil => rfl
    | cons c r =>
      have := hrest c rfl
      simp [parsenum, this, valueFrom]
  | cons c ds ih =>
    intro acc hd hle
    have hc := hd c (List.mem_cons_self _ _)
    have hge := valueFrom_ge ds (10 * acc + digitVal c)
    have hv : valueFrom acc (c :: ds) = valueFrom (10 * acc + digitVal c) ds := rfl
    rw [hv] at hle ⊢
    have hacc : ¬ acc > 1000000 := by omega
    rw [List.cons_append]
    unfold parsenum
    rw [if_pos hc, if_neg hacc]
    exact ih _ (fun x hx => hd x (List.mem_cons_of_mem _ hx)) hle


theorem sprintfGo_literal (i : Int) (c : Char) (hc : c ≠ '%') (fuel : Nat) (s : Str)
    (used : Bool) :
    sprintfGo i (fuel + 1) (c :: s) used = (sprintfGo i fuel s used).map (fun r => c :: r) := by
  rw [sprintfGo]
  intro h
  exact absurd h hc

theorem sprintfGo_text (i : Int) (used : Bool) (rest : Str) :
    ∀ (s : Str) (fuel : Nat), (∀ c ∈ s, c ≠ '%') →
      sprintfGo i (fuel + s.length) (s ++ rest) used =
        (sprintfGo i fuel rest used).map (fun r => s ++ r) := by
  intro s
  induction s with
  | nil => intro fuel _; simp
  | cons c s ih =>
    intro fuel h
    have hc := h c (List.mem_cons_self _ _)
    rw [List.length_cons, ← Nat.add_assoc, List.cons_append, sprintfGo_literal i c hc,
      ih fuel (fun x hx => h x (List.mem_cons_of_mem _ hx))]
    cases sprintfGo i fuel rest used <;> simp

theorem sprintfGo_end (i : Int) (fuel : Nat) : sprintfGo i (fuel + 1) [] true = some [] := by
  simp [sprintfGo]

theorem dropZeroFlags_nonzero (s : Str) (h : s.head? ≠ some '0') :
    dropZeroFlags s = (false, s) := by
  unfold dropZeroFlags
  split
  · simp at h
  · rfl


theorem decimalValue_eq_valueFrom (ds : Str) : valueFrom 0 ds = decimalValue ds := rfl

theorem sprintfGo_directive (i : Int) (w : Nat) (hw1 : 1 ≤ w) (hw : w ≤ 10000009)
    (fuel : Nat) (t : Str) :
    sprintfGo i (fuel + 1) ('%' :: '0' :: (decimal w ++ 'd' :: t)) false =
      (sprintfGo i fuel t true).map (fun r => fmtInteger true (some w) i ++ r) := by
  obtain ⟨hne, hdig, hval, hhead, _⟩ := decimal_spec w
  have hdrop : dropZeroFlags ('0' :: (decimal w ++ 'd' :: t)) =
      (true, decimal w ++ 'd' :: t) := by
    have h1 : dropZeroFlags (decimal w ++ 'd' :: t) = (false, decimal w ++ 'd' :: t) := by
      apply dropZeroFlags_nonzero
      cases hd : decimal w with
      | nil => exact absurd hd hne
      | cons a l =>
        have := hhead (by omega)
        rw [hd] at this
        simpa using this
    rw [dropZeroFlags, h1]
  have hparse : parsenum (decimal w ++ 'd' :: t) 0 = some (w, 'd' :: t) := by
    have := parsenum_digits ('d' :: t) (by intro c hc; simp at hc; rw [← hc]; decide)
      (decimal w) 0 hdig (by rw [decimalValue_eq_valueFrom, hval]; exact hw)
    rw [this, decimalValue_eq_valueFrom, hval]
  have hlen : ('d' :: t).length < (decimal w ++ 'd' :: t).length := by
    have : 0 < (decimal w).length := List.length_pos.mpr hne
    simp
    omega
  rw [sprintfGo]
  simp only [hdrop, hparse, hlen, if_true]
  simp


theorem Sprintf_template (P E : Str) (hP : ∀ c ∈ P, c ≠ '%') (hE : ∀ c ∈ E, c ≠ '%')
    (w : Nat) (hw1 : 1 ≤ w) (hw : w ≤ 10000009) (i : Int) :
    Sprintf (P ++ ('%' :: '0' :: (decimal w ++ 'd' :: E))) i =
      some (P ++ fmtInteger true (some w) i ++ E) := by
  unfold Sprintf
  have hfuel : (P ++ ('%' :: '0' :: (decimal w ++ 'd' :: E))).length + 1 =
      ((decimal w).length + 2 + 1 + E.length + 1) + P.length := by
    simp only [List.length_append, List.length_cons]
    omega
  rw [hfuel, sprintfGo_text i false _ P _ hP, sprintfGo_directive i w hw1 hw]
  have hE2 : sprintfGo i ((decimal w).length + 2 + 1 + E.length) E true = some E := by
    have := sprintfGo_text i true [] E ((decimal w).length + 2 + 1) hE
    rw [List.append_nil, sprintfGo_end] at this
    rw [this]
    simp
  rw [hE2]
  simp

theorem fmtInteger_zeropad (w i : Nat) : fmtInteger true (some w) (i : Int) = zeropad i w := by
  unfold fmtInteger zeropad
  have hneg : decide ((i : Int) < 0) = false := by
    rw [decide_eq_false_iff_not]
    omega
  simp [hneg]

theorem zeropad_length (i w : Nat) (h : (decimal i).length ≤ w) : (zeropad i w).length = w := by
  unfold zeropad
  rw [List.length_append, List.length_replicate]
  omega

theorem extScan_no_dot : ∀ rev acc : List Char, (∀ c ∈ rev, c ≠ '.') → extScan rev acc = [] := by
  intro rev
  induction rev with
  | nil => intro acc _; rfl
  | cons c rev ih =>
    intro acc h
    have hc : (c == '.') = false := by
      simpa using h c (List.mem_cons_self _ _)
    unfold extScan
    split
    · rfl
    · rw [hc]
      exact ih _ (fun x hx => h x (List.mem_cons_of_mem _ hx))

theorem mem_longPath (n : Nat) (c : Char) (h : c ∈ longPath n) : c = 's' ∨ c = '0' ∨ c = '2' := by
  unfold longPath longDigits at h
  simp only [List.mem_cons, List.mem_append, List.mem_replicate, List.mem_singleton,
    List.not_mem_nil, or_false] at h
  rcases h with h | ⟨_, h⟩ | h
  · exact Or.inl h
  · exact Or.inr (Or.inl h)
  · exact Or.inr (Or.inr h)

theorem Ext_longPath (n : Nat) : Ext (longPath n) = [] := by
  unfold Ext
  apply extScan_no_dot
  intro c hc
  rcases mem_longPath n c (List.mem_reverse.mp hc) with h | h | h <;> rw [h] <;> decide

theorem longDigits_digits (n : Nat) : ∀ c ∈ longDigits n, isDigit c = true := by
  intro c hc
  unfold longDigits at hc
  simp only [List.mem_append, List.mem_replicate, List.mem_singleton] at hc
  rcases hc with ⟨_, h⟩ | h <;> rw [h] <;> decide

theorem layerRawOf_longPath (n : Nat) : layerRawOf (longPath n) = longDigits n := by
  unfold layerRawOf baseOf
  rw [Ext_longPath, List.length_nil, Nat.sub_zero, List.take_length]
  unfold FindString longPath
  rw [List.reverse_cons, List.takeWhile_append_of_pos
    (fun c hc => longDigits_digits n c (List.mem_reverse.mp hc))]
  have : List.takeWhile isDigit ['s'] = [] := by decide
  rw [this, List.append_nil, List.reverse_reverse]

theorem decimalValue_zeros (n : Nat) : decimalValue (List.replicate n '0') = 0 := by
  induction n with
  | zero => rfl
  | succ n ih =>
    rw [List.replicate_succ']
    rw [decimalValue_append_singleton, ih]
    decide

theorem layerOf_longPath (n : Nat) : layerOf (longPath n) = 2 := by
  unfold layerOf
  rw [layerRawOf_longPath]
  unfold longDigits
  rw [decimalValue_append_singleton, decimalValue_zeros]
  decide

theorem length_longDigits (n : Nat) : (longDigits n).length = n + 1 := by
  simp [longDigits]

theorem longPath_unique (n : Nat) :
    ∀ A B, longPath n = A ++ (longDigits n ++ []) ++ B → B = [] := by
  intro A B h
  rw [List.append_nil] at h
  have hlen := congrArg List.length h
  simp only [longPath, List.length_cons, List.length_append] at hlen
  cases A with
  | cons a A =>
    simp only [List.length_cons] at hlen
    have : B.length = 0 := by omega
    exact List.length_eq_zero.mp this
  | nil =>
    exfalso
    rw [List.nil_append] at h
    unfold longPath longDigits at h
    cases n with
    | zero => simp at h
    | succ n =>
      rw [List.replicate_succ] at h
      simp at h

theorem longPath_no_percent (n : Nat) : ∀ c ∈ longPath n, c ≠ '%' := by
  intro c hc
  rcases mem_longPath n c hc with h | h | h <;> rw [h] <;> decide

theorem templateOf_longPath (n : Nat) :
    templateOf (longPath n) = 's' :: '%' :: '0' :: (decimal (n + 1) ++ ['d']) := by
  unfold templateOf layerTemplate
  rw [layerRawOf_longPath, Ext_longPath, length_longDigits]
  simp only [List.append_nil]
  have h := ReplaceAll_unique_suffix ['s'] (longDigits n)
    ("%0".toList ++ decimal (n + 1) ++ ['d']) (by simp [longDigits])
    (fun A B hAB => longPath_unique n A B (by
      rw [List.append_nil, ← hAB]
      rfl))
  exact h

theorem zeropad_one_head (n : Nat) :
    (zeropad 1 (n + 2)).head? = some '0' := by
  unfold zeropad
  have h1 : (decimal 1).length = 1 := by decide
  rw [h1]
  have : n + 2 - 1 = n + 1 := by omega
  rw [this, List.replicate_succ]
  rfl


theorem longPath_form (n : Nat) : longPath n = "s".toList ++ longDigits n ++ [] := by
  rw [List.append_nil]
  rfl

theorem sysWith_Sprintf (files : List Str) :
    ∀ t i r, Sprintf t i = some r → (sysWith files).Sprintf t i = r := by
  intro t i r h
  show (Sprintf t i).getD [] = r
  rw [h]
  rfl

theorem noverb_ne_padded (z : Str) (hz : z.head? = some '0') :
    "s%!(NOVERB)%!(EXTRA int64=1)".toList ≠ "s".toList ++ z ++ [] := by
  intro h
  cases z with
  | nil => simp at hz
  | cons a l =>
    simp only [List.head?_cons, Option.some.injEq] at hz
    rw [hz] at h
    have h2 : some '%' = some '0' := congrArg (fun l => l.tail.head?) h
    exact absurd h2 (by decide)

theorem occursOnlyAsSuffix_unique (X path : Str) (h : occursOnlyAsSuffix X path = true) :
    ∀ A B, path = A ++ X ++ B → B = [] := by
  intro A B hp
  by_contra hB
  have hBlen : 0 < B.length := List.length_pos.mpr hB
  have hlen : path.length = A.length + X.length + B.length := by
    rw [hp, List.length_append, List.length_append]
  unfold occursOnlyAsSuffix at h
  rw [List.all_eq_true] at h
  have hk := h A.length (List.mem_range.mpr (by omega))
  have hdrop : path.drop A.length = X ++ B := by
    rw [hp, List.append_assoc, List.drop_left]
  rw [hdrop] at hk
  have hpre : X.isPrefixOf (X ++ B) = true :=
    List.isPrefixOf_iff_prefix.mpr (List.prefix_append _ _)
  rw [hpre] at hk
  exact absurd hk (by decide)

theorem unique_occursOnlyAsSuffix (X path : Str)
    (h : ∀ A B, path = A ++ X ++ B → B = []) : occursOnlyAsSuffix X path = true := by
  unfold occursOnlyAsSuffix
  rw [List.all_eq_true]
  intro k hk
  have hk := List.mem_range.mp hk
  rw [Bool.not_eq_true']
  by_contra hpre
  have hpre : X.isPrefixOf (path.drop k) = true := by
    cases hx : X.isPrefixOf (path.drop k) with
    | true => rfl
    | false => exact absurd hx hpre
  obtain ⟨B, hB⟩ := List.isPrefixOf_iff_prefix.mp hpre
  have hp : path = path.take k ++ X ++ B := by
    rw [List.append_assoc, hB, List.take_append_drop]
  have hnil := h _ _ hp
  rw [hnil, List.append_nil] at hB
  have hlen := congrArg List.length hB
  rw [List.length_drop] at hlen
  omega

/-- C16, at a path where it fails: the path `s00...02` has no extension and
a trailing run `D` of 10000010 digits (10000009 zeros and a 2, so `N = 2`); it
contains no percent sign and `D` occurs in it once, as its suffix.  The
template is `s%010000010d`; `fmt.Sprintf` gives up on a width whose parse
passes `1e6` with a digit still to read, so the template rendered with
`i = 1` is `s%!(NOVERB)%!(EXTRA int64=1)` and not `s` followed by 1 padded
with zeros to the width of `D`. -/
theorem render_long_digits :
    longPath 10000009 = "s".toList ++ longDigits 10000009 ++ [] ∧
    Ext (longPath 10000009) = [] ∧
    layerRawOf (longPath 10000009) = longDigits 10000009 ∧
    (longDigits 10000009).length = 10000010 ∧
    layerOf (longPath 10000009) = 2 ∧
    '%' ∉ longPath 10000009 ∧
    occursOnlyAsSuffix (longDigits 10000009 ++ []) (longPath 10000009) = true ∧
    (∀ t i r, Sprintf t i = some r → (sysWith []).Sprintf t i = r) ∧
    templateOf (longPath 10000009) = "s%010000010d".toList ∧
    render (sysWith []) (longPath 10000009) 1 = "s%!(NOVERB)%!(EXTRA int64=1)".toList ∧
    render (sysWith []) (longPath 10000009) 1 ≠
      "s".toList ++ zeropad 1 (longDigits 10000009).length ++ [] := by
  have htemplate : templateOf (longPath 10000009) = "s%010000010d".toList := by
    rw [templateOf_longPath]
    rfl
  have hrender : render (sysWith []) (longPath 10000009) 1 =
      "s%!(NOVERB)%!(EXTRA int64=1)".toList := by
    unfold render
    rw [htemplate]
    rfl
  refine ⟨longPath_form _, Ext_longPath _, layerRawOf_longPath _, length_longDigits _,
    layerOf_longPath _, fun h => longPath_no_percent _ _ h rfl,
    unique_occursOnlyAsSuffix _ _ (longPath_unique _), sysWith_Sprintf [],
    htemplate, hrender, ?_⟩
  rw [hrender, length_longDigits]
  exact noverb_ne_padded _ (zeropad_one_head 10000008)

/-- C16, amended by a bound on the digit run: for a system whose `fmt.Sprintf`
agrees with the modelled fragment, and a path `P ++ D ++ E` where `E` is the
extension and `D` the trailing digit run of the base, such that the path
contains no percent sign, `D ++ E` occurs in the path only as its suffix, and
`D` has at most 10000009 digits: for every `i < N` (so for every `i` with
`1 ≤ i < N`) the template rendered with `i` is `P ++ zeropad(i, |D|) ++ E`,
the padded number has exactly `|D|` digits, and the decimal text of `i` is
not longer than `D`. -/
theorem render_template_sound (sys : Sys)
    (hfmt : ∀ t i r, Sprintf t i = some r → sys.Sprintf t i = r)
    (path P D E : Str) (hpath : path = P ++ D ++ E) (hE : Ext path = E)
    (hD : layerRawOf path = D) (hpct : '%' ∉ path)
    (hocc : occursOnlyAsSuffix (D ++ E) path = true)
    (hw : D.length ≤ 10000009) (i : Nat) (h2 : i < layerOf path) :
    render sys path i = P ++ zeropad i D.length ++ E ∧
      (zeropad i D.length).length = D.length ∧ (decimal i).length ≤ D.length := by
  have hval : layerOf path = decimalValue D := by rw [layerOf, hD]
  have hne : D ≠ [] := by
    intro h
    rw [hval, h] at h2
    simp [decimalValue] at h2
  have hdig : ∀ c ∈ D, isDigit c = true := by
    rw [← hD]
    exact layerRawOf_digits path
  have hlen : (decimal i).length ≤ D.length := by
    apply (decimal_spec i).2.2.2.2 D.length (List.length_pos.mpr hne)
    have := decimalValue_lt D hdig
    omega
  have hpath2 : path = P ++ (D ++ E) := by rw [hpath, List.append_assoc]
  have huniq := occursOnlyAsSuffix_unique (D ++ E) path hocc
  have htemplate : templateOf path =
      P ++ ('%' :: '0' :: (decimal D.length ++ 'd' :: E)) := by
    unfold templateOf layerTemplate
    rw [hD, hE]
    conv_lhs => rw [hpath2]
    rw [ReplaceAll_unique_suffix P (D ++ E) _ (by simp [hne])
      (fun A B h => huniq A B (by rw [hpath2]; exact h))]
    simp
  have hpct2 : ∀ c ∈ path, c ≠ '%' := fun c hc h => hpct (h ▸ hc)
  have hP : ∀ c ∈ P, c ≠ '%' := fun c hc => hpct2 c (by rw [hpath2]; simp [hc])
  have hE2 : ∀ c ∈ E, c ≠ '%' := fun c hc => hpct2 c (by rw [hpath2]; simp [hc])
  have hr : render sys path i = P ++ zeropad i D.length ++ E := by
    unfold render
    rw [htemplate]
    apply hfmt
    rw [Sprintf_template P E hP hE2 D.length (List.length_pos.mpr hne) hw, fmtInteger_zeropad]
  exact ⟨hr, zeropad_length i D.length hlen, hlen⟩

/-- C16 on examples: layer 2 of `secrets003.yaml` is `secrets002.yaml`, and
layer 9 of `v2/layer0010.json` is `v2/layer0009.json`: the digit in the
directory name is left alone. -/
theorem render_template_sound_witness :
    render (sysWith []) "secrets003.yaml".toList 2 = "secrets002.yaml".toList ∧
    render (sysWith []) "v2/layer0010.json".toList 9 = "v2/layer0009.json".toList :=
  ⟨(render_template_sound (sysWith []) (sysWith_Sprintf []) "secrets003.yaml".toList
      "secrets".toList "003".toList ".yaml".toList rfl (by rfl) (by rfl) (by decide)
      (by decide) (by decide) 2 (by decide)).1,
    (render_template_sound (sysWith []) (sysWith_Sprintf []) "v2/layer0010.json".toList
      "v2/layer".toList "0010".toList ".json".toList rfl (by rfl) (by rfl) (by decide)
      (by decide) (by decide) 9 (by decide)).1⟩

end Sops
